import Mathlib

/-!
Verification of the YouTrack MCP tag engine and response normalization.

This file gives a shallow embedding of the two core components of the
repository:

* `convert_timestamp_to_iso8601`, `add_iso8601_timestamps` and
  `format_json_response` from `src/youtrack_mcp/utils.py` (the Response
  Normalization Transform), and
* the seven public tag operations of class `Tags` from
  `src/youtrack_mcp/tools/issues/tags.py` (the Tag Resolution and
  Mutation Engine).

Python JSON-compatible data is embedded as the inductive `JsonValue`;
Python dictionaries become insertion-ordered association lists, with
`lookupKey` (membership test plus subscript read) and `setKey`
(subscript assignment: replace the binding in place when the key exists,
append it otherwise) embedding the dictionary operations used by the
source.  The external collaborator `issues_api` (an `IssuesClient`, not
part of the analysed sources, specified at its interface boundary) is
embedded as a structure of functions; a raised Python exception is an
`Except.error` carrying `str(e)`.  Each engine operation returns, next
to its JSON string, the ordered trace of collaborator invocations it
issued, so that statements about which remote calls happen are plain
equalities on that trace.
-/

/-- Embedding of Python JSON-compatible values: `None`, `bool`, `int`,
`str`, `list` and `dict` (an insertion-ordered association list with
string keys, as produced by JSON decoding). -/
inductive JsonValue where
  | null : JsonValue
  | bool (b : Bool) : JsonValue
  | int (n : Int) : JsonValue
  | str (s : String) : JsonValue
  | arr (xs : List JsonValue) : JsonValue
  | obj (kvs : List (String × JsonValue)) : JsonValue
deriving Repr

/-- Python dictionary read `d[k]` together with the membership test
`k in d`: the value at the first binding of `k`, if any. -/
def lookupKey : List (String × JsonValue) → String → Option JsonValue
  | [], _ => none
  | (k, v) :: rest, k' => if k = k' then some v else lookupKey rest k'

/-- Python dictionary write `d[k] = v`: replace the value at the first
binding of `k` keeping its position, or append the binding at the end
when `k` is not yet a key. -/
def setKey : List (String × JsonValue) → String → JsonValue → List (String × JsonValue)
  | [], k, v => [(k, v)]
  | (k', v') :: rest, k, v =>
      if k' = k then (k, v) :: rest else (k', v') :: setKey rest k v

/-- The keys of an embedded dictionary, in order. -/
def keysOf (kvs : List (String × JsonValue)) : List String :=
  kvs.map Prod.fst

/-- Python `isinstance(v, int)` on a JSON value, returning the integer it
stands for: `True`/`False` are instances of `int` in Python (with values
1 and 0), so they pass the check alongside actual integers. -/
def asPyInt : JsonValue → Option Int
  | .int n => some n
  | .bool b => some (if b then 1 else 0)
  | _ => none

/-- Python `isinstance(v, (dict, list))`. -/
def isContainer : JsonValue → Bool
  | .obj _ => true
  | .arr _ => true
  | _ => false

/-- Earliest value of `datetime` expressible in microseconds since the
Unix epoch: 0001-01-01T00:00:00 UTC.  `datetime.fromtimestamp` raises
below it. -/
def minDatetimeMicro : Int := -62135596800000000

/-- Latest value of `datetime` in microseconds since the Unix epoch:
9999-12-31T23:59:59.999999 UTC.  `datetime.fromtimestamp` raises above
it. -/
def maxDatetimeMicro : Int := 253402300799999999

/-- Gregorian date from days since the Unix epoch (the standard civil
calendar algorithm), giving (year, month, day).  Used to embed the date
computed by `datetime.fromtimestamp(..., tz=timezone.utc)`. -/
def civilFromDays (z : Int) : Int × Int × Int :=
  let z' := z + 719468
  let era := z'.ediv 146097
  let doe := z' - era * 146097
  let yoe := (doe - doe.ediv 1460 + doe.ediv 36524 - doe.ediv 146096).ediv 365
  let y := yoe + era * 400
  let doy := doe - (365 * yoe + yoe.ediv 4 - yoe.ediv 100)
  let mp := (5 * doy + 2).ediv 153
  let d := doy - (153 * mp + 2).ediv 5 + 1
  let m := mp + (if mp < 10 then 3 else -9)
  (y + (if m ≤ 2 then 1 else 0), m, d)

/-- Decimal rendering of a nonnegative integer left-padded with zeros to
`w` digits, as Python "%0*d" does for the date and time components. -/
def padZeros (w : Nat) (n : Int) : String :=
  let s := toString n
  String.join (List.replicate (w - s.length) "0") ++ s

/-- Rendering of `datetime.fromtimestamp(micro / 10^6, tz=timezone.utc).isoformat()`
for an in-range count of microseconds since the epoch: date, "T", time,
the ".%06d" microsecond part only when nonzero, and the "+00:00" UTC
offset. -/
def isoformatUtcOfMicro (micro : Int) : String :=
  let sec := micro.ediv 1000000
  let usec := micro.emod 1000000
  let days := sec.ediv 86400
  let sod := sec.emod 86400
  let ymd := civilFromDays days
  let hh := sod.ediv 3600
  let mm := (sod.emod 3600).ediv 60
  let ss := sod.emod 60
  padZeros 4 ymd.1 ++ "-" ++ padZeros 2 ymd.2.1 ++ "-" ++ padZeros 2 ymd.2.2 ++
    "T" ++ padZeros 2 hh ++ ":" ++ padZeros 2 mm ++ ":" ++ padZeros 2 ss ++
    (if usec = 0 then "" else "." ++ padZeros 6 usec) ++ "+00:00"

/-- Embedding of `convert_timestamp_to_iso8601` from
`src/youtrack_mcp/utils.py`: divide the millisecond timestamp by 1000,
build a UTC datetime and return its ISO-8601 rendering; when the instant
is out of the representable range (Python raises ValueError / OSError /
OverflowError) return `str(timestamp_ms)` instead.  The stdlib datetime
arithmetic is embedded exactly over the integers (the source's float
division by 1000 is exact on every timestamp the claims touch). -/
def convert_timestamp_to_iso8601 (timestamp_ms : Int) : String :=
  let micro := timestamp_ms * 1000
  if micro < minDatetimeMicro ∨ maxDatetimeMicro < micro then
    toString timestamp_ms
  else
    isoformatUtcOfMicro micro

/-- One step of the timestamp loop of `add_iso8601_timestamps`: for the
given field name, when the dictionary holds it with an `int` value,
write the derived "<field>_iso8601" sibling; otherwise leave the
dictionary as it is. -/
def processTimestampField (kvs : List (String × JsonValue)) (field : String) :
    List (String × JsonValue) :=
  match lookupKey kvs field with
  | some v =>
      match asPyInt v with
      | some n =>
          setKey kvs (field ++ "_iso8601") (.str (convert_timestamp_to_iso8601 n))
      | none => kvs
  | none => kvs

/-- The `for field in ["created", "updated"]` loop of
`add_iso8601_timestamps`, in source order. -/
def processTimestamps (kvs : List (String × JsonValue)) : List (String × JsonValue) :=
  processTimestampField (processTimestampField kvs "created") "updated"

/-- Embedding of `add_iso8601_timestamps` from `src/youtrack_mcp/utils.py`:
on a dictionary, copy it, derive the ISO-8601 siblings of integer
"created"/"updated" fields, then rewrite each value that is itself a
dict or list by recursion; on a list, rebuild it from the recursively
processed items; anything else is returned unchanged. -/
def add_iso8601_timestamps : JsonValue → JsonValue
  | .obj kvs =>
      .obj ((processTimestamps kvs).attach.map fun kv =>
        (kv.1.1, if h : isContainer kv.1.2 then add_iso8601_timestamps kv.1.2 else kv.1.2))
  | .arr xs => .arr (xs.attach.map fun x => add_iso8601_timestamps x.1)
  | v => v
termination_by v => sizeOf v
decreasing_by
  · have hset : ∀ (l : List (String × JsonValue)) k v p, p ∈ setKey l k v →
        p ∈ l ∨ p = (k, v) := by
      intro l k v p hp
      induction l with
      | nil => simp [setKey] at hp; simp [hp]
      | cons hd tl ih =>
          simp only [setKey] at hp
          by_cases hk : hd.1 = k
          · rw [if_pos hk] at hp
            rcases List.mem_cons.mp hp with h1 | h1
            · right; exact h1
            · left; exact List.mem_cons_of_mem _ h1
          · rw [if_neg hk] at hp
            rcases List.mem_cons.mp hp with h1 | h1
            · left; exact h1 ▸ List.mem_cons_self _ _
            · rcases ih h1 with h2 | h2
              · left; exact List.mem_cons_of_mem _ h2
              · right; exact h2
    have hptf : ∀ (l : List (String × JsonValue)) f p, p ∈ processTimestampField l f →
        p ∈ l ∨ ∃ s, p.2 = JsonValue.str s := by
      intro l f p hp
      unfold processTimestampField at hp
      rcases hl : lookupKey l f with _ | v
      · simp only [hl] at hp; left; exact hp
      · simp only [hl] at hp
        rcases hv : asPyInt v with _ | n
        · simp only [hv] at hp; left; exact hp
        · simp only [hv] at hp
          rcases hset _ _ _ _ hp with h1 | h1
          · left; exact h1
          · right; exact ⟨_, by rw [h1]⟩
    rcases hptf _ _ _ kv.2 with hin | ⟨s, hs⟩
    · rcases hptf _ _ _ hin with hin2 | ⟨s, hs⟩
      · have hsz : sizeOf kv.1 < sizeOf _ := List.sizeOf_lt_of_mem hin2
        obtain ⟨⟨k1, v1⟩, hkv⟩ := kv
        simp only [JsonValue.obj.sizeOf_spec]
        simp only [Prod.mk.sizeOf_spec] at hsz ⊢
        omega
      · rw [hs] at h; simp [isContainer] at h
    · rw [hs] at h; simp [isContainer] at h
  · have := List.sizeOf_lt_of_mem x.2
    simp only [JsonValue.arr.sizeOf_spec]
    omega

/-- The branch of `add_iso8601_timestamps` applied to each dictionary
value: recurse when the value is itself a dict or list, keep it
otherwise. -/
def recContainer (v : JsonValue) : JsonValue :=
  if isContainer v then add_iso8601_timestamps v else v

/-- Hexadecimal digit, lower case, as Python's \uXXXX escapes use. -/
def hexDigit (n : Nat) : String :=
  String.singleton ("0123456789abcdef".toList.getD n (Char.ofNat 48))

/-- Four-digit lower-case hexadecimal rendering of a code unit. -/
def hex4 (n : Nat) : String :=
  hexDigit (n / 4096 % 16) ++ hexDigit (n / 256 % 16) ++ hexDigit (n / 16 % 16) ++
    hexDigit (n % 16)

/-- Python `json.dumps` escape for one character with the default
`ensure_ascii=True`: the short escapes of the encoder's escape table,
\uXXXX for other control or non-ASCII characters (as a surrogate pair
beyond the basic plane), the character itself otherwise. -/
def escapeJsonChar (c : Char) : String :=
  if c = Char.ofNat 34 then "\\\""
  else if c = Char.ofNat 92 then "\\\\"
  else if c = Char.ofNat 10 then "\\n"
  else if c = Char.ofNat 9 then "\\t"
  else if c = Char.ofNat 13 then "\\r"
  else if c = Char.ofNat 8 then "\\b"
  else if c = Char.ofNat 12 then "\\f"
  else if c.toNat < 32 ∨ 126 < c.toNat then
    (if c.toNat ≤ 65535 then "\\u" ++ hex4 c.toNat
     else "\\u" ++ hex4 (55296 + (c.toNat - 65536) / 1024) ++
          "\\u" ++ hex4 (56320 + (c.toNat - 65536) % 1024))
  else String.singleton c

/-- Python `json.dumps` rendering of a string literal. -/
def quoteJsonString (s : String) : String :=
  "\"" ++ String.join (s.toList.map escapeJsonChar) ++ "\""

/-- The indentation in front of an element nested `lvl` levels deep when
dumping with `indent=2`. -/
def jsonIndent (lvl : Nat) : String :=
  String.join (List.replicate lvl "  ")

/-- Embedding of `json.dumps(data, indent=2)`: the pretty-printed JSON
text produced at nesting level `lvl`. -/
def jsonDumps : Nat → JsonValue → String
  | _, .null => "null"
  | _, .bool true => "true"
  | _, .bool false => "false"
  | _, .int n => toString n
  | _, .str s => quoteJsonString s
  | _, .arr [] => "[]"
  | lvl, .arr xs =>
      "[\n" ++
        String.intercalate ",\n"
          (xs.attach.map fun x => jsonIndent (lvl + 1) ++ jsonDumps (lvl + 1) x.1) ++
        "\n" ++ jsonIndent lvl ++ "]"
  | _, .obj [] => "\x7b\x7d"
  | lvl, .obj kvs =>
      "\x7b\n" ++
        String.intercalate ",\n"
          (kvs.attach.map fun kv =>
            jsonIndent (lvl + 1) ++ quoteJsonString kv.1.1 ++ ": " ++
              jsonDumps (lvl + 1) kv.1.2) ++
        "\n" ++ jsonIndent lvl ++ "\x7d"
termination_by _ v => sizeOf v
decreasing_by
  · have := List.sizeOf_lt_of_mem x.2
    simp only [JsonValue.arr.sizeOf_spec]
    omega
  · have hsz : sizeOf kv.1 < sizeOf _ := List.sizeOf_lt_of_mem kv.2
    obtain ⟨⟨k1, v1⟩, hkv⟩ := kv
    simp only [JsonValue.obj.sizeOf_spec]
    simp only [Prod.mk.sizeOf_spec] at hsz ⊢
    omega

/-- Embedding of `format_json_response` from `src/youtrack_mcp/utils.py`:
add the ISO-8601 timestamps, then dump the result as a JSON string with
`indent=2`. -/
def format_json_response (data : JsonValue) : String :=
  jsonDumps 0 (add_iso8601_timestamps data)

/-- A tag as handed back by the Tag Directory collaborator: the JSON
dictionary `body` the remote API returned, with the value of its
required "id" entry exposed as `id` (the source reads it as
`tag["id"]`; per the collaborator contract of the spec a Tag always
carries its opaque id). -/
structure Tag where
  id : String
  body : JsonValue

/-- One invocation of the external `issues_api` collaborator, recorded
in the order the engine issues them.  The last five are the Tag
Directory lookup and the Issue Tag Store operations of the spec. -/
inductive ApiCall where
  | getTags (query : Option String) (limit : Int)
  | getIssueTags (issue_id : String)
  | findTagByName (name : String)
  | addTagToIssue (issue_id : String) (tag_id : String)
  | removeTagFromIssue (issue_id : String) (tag_id : String)
  | setIssueTags (issue_id : String) (tag_ids : List String)
  | removeAllTagsFromIssue (issue_id : String)

/-- The external collaborator `issues_api` (`IssuesClient`), specified
at its interface boundary: each method either returns its result or
raises, an `Except.error` carrying `str(e)` of the raised exception.
`find_tag_by_name` distinguishes absence (`Option.none`, Python `None`)
from failure. -/
structure IssuesClient where
  get_tags : Option String → Int → Except String JsonValue
  get_issue_tags : String → Except String JsonValue
  find_tag_by_name : String → Except String (Option Tag)
  add_tag_to_issue : String → String → Except String JsonValue
  remove_tag_from_issue : String → String → Except String Bool
  set_issue_tags : String → List String → Except String JsonValue
  remove_all_tags_from_issue : String → Except String JsonValue

/-- The `return format_json_response({"error": str(e)})` boundary result
every operation produces for a failure. -/
def errorResponse (message : String) : String :=
  format_json_response (.obj [("error", .str message)])

/-- Embedding of `Tags.get_available_tags`: delegate to the directory
listing, format the result; a raised exception becomes an error
response.  Returns the JSON string and the collaborator-call trace. -/
def Tags.get_available_tags (api : IssuesClient) (query : Option String := none)
    (limit : Int := 50) : String × List ApiCall :=
  match api.get_tags query limit with
  | .ok tags => (format_json_response tags, [.getTags query limit])
  | .error e => (errorResponse e, [.getTags query limit])

/-- Embedding of `Tags.get_issue_tags`: pure passthrough to the Issue
Tag Store lookup with the same failure policy. -/
def Tags.get_issue_tags (api : IssuesClient) (issue_id : String) :
    String × List ApiCall :=
  match api.get_issue_tags issue_id with
  | .ok tags => (format_json_response tags, [.getIssueTags issue_id])
  | .error e => (errorResponse e, [.getIssueTags issue_id])

/-- Embedding of `Tags.add_tag_to_issue`: resolve the name through the
directory; on a miss return the TagNotFound error with the discovery
hint; on a hit issue the add-by-id mutation and format its result; a
raised exception becomes an error response. -/
def Tags.add_tag_to_issue (api : IssuesClient) (issue_id : String)
    (tag_name : String) : String × List ApiCall :=
  match api.find_tag_by_name tag_name with
  | .error e => (errorResponse e, [.findTagByName tag_name])
  | .ok none =>
      (errorResponse
        ("Tag '" ++ tag_name ++ "' not found. Use get_available_tags() to see available tags."),
       [.findTagByName tag_name])
  | .ok (some tag) =>
      match api.add_tag_to_issue issue_id tag.id with
      | .ok result =>
          (format_json_response result,
           [.findTagByName tag_name, .addTagToIssue issue_id tag.id])
      | .error e =>
          (errorResponse e, [.findTagByName tag_name, .addTagToIssue issue_id tag.id])

/-- Embedding of `Tags.remove_tag_from_issue`: resolve the name; on a
miss return the not-found-on-this-issue error; on a hit issue the
remove-by-id mutation, mapping the store's boolean verdict to the
success confirmation or the RemovalFailed error. -/
def Tags.remove_tag_from_issue (api : IssuesClient) (issue_id : String)
    (tag_name : String) : String × List ApiCall :=
  match api.find_tag_by_name tag_name with
  | .error e => (errorResponse e, [.findTagByName tag_name])
  | .ok none =>
      (errorResponse ("Tag '" ++ tag_name ++ "' not found on this issue."),
       [.findTagByName tag_name])
  | .ok (some tag) =>
      match api.remove_tag_from_issue issue_id tag.id with
      | .ok true =>
          (format_json_response
            (.obj [("success", .bool true),
                   ("message", .str ("Tag '" ++ tag_name ++ "' removed from issue " ++ issue_id))]),
           [.findTagByName tag_name, .removeTagFromIssue issue_id tag.id])
      | .ok false =>
          (errorResponse ("Failed to remove tag '" ++ tag_name ++ "' from issue " ++ issue_id),
           [.findTagByName tag_name, .removeTagFromIssue issue_id tag.id])
      | .error e =>
          (errorResponse e,
           [.findTagByName tag_name, .removeTagFromIssue issue_id tag.id])

/-- The resolution loop of `Tags.set_issue_tags`: look every name up in
input order, partitioning into resolved ids and missing names (both
order-preserving); a directory exception aborts the loop and is
propagated to the caller's except clause. -/
def resolveTagNames (api : IssuesClient) :
    List String → Except String (List String × List String) × List ApiCall
  | [] => (.ok ([], []), [])
  | name :: rest =>
      match api.find_tag_by_name name with
      | .error e => (.error e, [.findTagByName name])
      | .ok (some tag) =>
          let r := resolveTagNames api rest
          (r.1.map fun p => (tag.id :: p.1, p.2), .findTagByName name :: r.2)
      | .ok none =>
          let r := resolveTagNames api rest
          (r.1.map fun p => (p.1, name :: p.2), .findTagByName name :: r.2)

/-- Embedding of `Tags.set_issue_tags`: resolve every name; if any is
missing return the TagsNotFound error listing the missing names in
input order with the discovery hint, without touching the store;
otherwise issue the set-tags mutation with the resolved ids in input
order and format its result. -/
def Tags.set_issue_tags (api : IssuesClient) (issue_id : String)
    (tag_names : List String) : String × List ApiCall :=
  match resolveTagNames api tag_names with
  | (.error e, calls) => (errorResponse e, calls)
  | (.ok (tag_ids, missing_tags), calls) =>
      match missing_tags with
      | _ :: _ =>
          (errorResponse
            ("Tags not found: " ++ String.intercalate ", " missing_tags ++
             ". Use get_available_tags() to see available tags."),
           calls)
      | [] =>
          match api.set_issue_tags issue_id tag_ids with
          | .ok result =>
              (format_json_response result, calls ++ [.setIssueTags issue_id tag_ids])
          | .error e =>
              (errorResponse e, calls ++ [.setIssueTags issue_id tag_ids])

/-- Embedding of `Tags.remove_all_tags_from_issue`: pure passthrough to
the store's clear operation with the same failure policy. -/
def Tags.remove_all_tags_from_issue (api : IssuesClient) (issue_id : String) :
    String × List ApiCall :=
  match api.remove_all_tags_from_issue issue_id with
  | .ok result => (format_json_response result, [.removeAllTagsFromIssue issue_id])
  | .error e => (errorResponse e, [.removeAllTagsFromIssue issue_id])

/-- Embedding of `Tags.find_tag_by_name`: pure passthrough to the
directory's exact-name lookup; a miss yields the TagNotFound error
naming the tag, with no discovery hint. -/
def Tags.find_tag_by_name (api : IssuesClient) (tag_name : String) :
    String × List ApiCall :=
  match api.find_tag_by_name tag_name with
  | .error e => (errorResponse e, [.findTagByName tag_name])
  | .ok none =>
      (errorResponse ("Tag '" ++ tag_name ++ "' not found"), [.findTagByName tag_name])
  | .ok (some tag) => (format_json_response tag.body, [.findTagByName tag_name])

/-- Whether the directory answers the lookup of `name` with a definite
miss (used to state which names the engine reports as missing). -/
def isMissingTag (api : IssuesClient) (name : String) : Bool :=
  match api.find_tag_by_name name with
  | .ok none => true
  | _ => false

/-- The id the directory resolves `name` to, when it does. -/
def resolvedTagId (api : IssuesClient) (name : String) : Option String :=
  match api.find_tag_by_name name with
  | .ok (some tag) => some tag.id
  | _ => none

/-- The bindings of a JSON dictionary (empty on any other value). -/
def objFields : JsonValue → List (String × JsonValue)
  | .obj kvs => kvs
  | _ => []

/-!
Heap-level embedding of `add_iso8601_timestamps`, for the frame
property "the transform must not mutate its input in place".  Python
values live on a heap of objects referenced by addresses; dictionaries
and lists hold the addresses of their members.  `data.copy()` allocates
a new dictionary sharing the value addresses (a shallow copy),
`result[k] = v` mutates the object at `result`'s address, and the
string built for a derived timestamp field is a fresh allocation.  The
transform's recursion is run with explicit fuel (Python recursion on
the acyclic JSON data always terminates; any fuel large enough gives
the real behavior, and the frame property below holds for every fuel).
-/

/-- A Python object on the heap: a scalar, or a container holding the
addresses of its members. -/
inductive PyObj where
  | pnull : PyObj
  | pbool (b : Bool) : PyObj
  | pint (n : Int) : PyObj
  | pstr (s : String) : PyObj
  | plist (elems : List Nat) : PyObj
  | pdict (entries : List (String × Nat)) : PyObj

/-- The addresses an object refers to. -/
def PyObj.ptrs : PyObj → List Nat
  | .plist elems => elems
  | .pdict entries => entries.map Prod.snd
  | _ => []

/-- The Python heap: the object at each address, and the next fresh
address (allocation counter). -/
structure Heap where
  get : Nat → Option PyObj
  next : Nat

/-- A well-formed heap: nothing lives at or beyond the allocation
counter, and every address an object holds is allocated below it. -/
def Heap.wf (h : Heap) : Prop :=
  (∀ b, h.next ≤ b → h.get b = none) ∧
  (∀ b o, h.get b = some o → ∀ p ∈ o.ptrs, p < h.next)

/-- Allocation of a fresh object, returning its address. -/
def Heap.alloc (h : Heap) (o : PyObj) : Nat × Heap :=
  (h.next, ⟨fun b => if b = h.next then some o else h.get b, h.next + 1⟩)

/-- In-place mutation of the object at an existing address. -/
def Heap.write (h : Heap) (a : Nat) (o : PyObj) : Heap :=
  ⟨fun b => if b = a then some o else h.get b, h.next⟩

/-- Python dictionary write on the address-valued entry list (same
replace-or-append semantics as `setKey`). -/
def setEntry : List (String × Nat) → String → Nat → List (String × Nat)
  | [], k, a => [(k, a)]
  | (k', a') :: rest, k, a =>
      if k' = k then (k, a) :: rest else (k', a') :: setEntry rest k a

/-- Python dictionary read on the address-valued entry list. -/
def lookupEntry : List (String × Nat) → String → Option Nat
  | [], _ => none
  | (k, a) :: rest, k' => if k = k' then some a else lookupEntry rest k'

/-- Python `isinstance(o, int)` on a heap object, with the integer it
stands for («bool» is a subclass of «int»). -/
def pyIntOf : PyObj → Option Int
  | .pint n => some n
  | .pbool b => some (if b then 1 else 0)
  | _ => none

/-- Whether the object at `a` is a dict or a list
(`isinstance(value, (dict, list))`). -/
def isContainerAddr (h : Heap) (a : Nat) : Bool :=
  match h.get a with
  | some (.pdict _) => true
  | some (.plist _) => true
  | _ => false

/-- The timestamp-field step of the heap-level transform on the result
dictionary at address `ra`: when it holds `field` with an `int` value,
allocate the derived ISO-8601 string and write the "<field>_iso8601"
binding into the dictionary in place. -/
def processFieldH (ra : Nat) (field : String) (h : Heap) : Heap :=
  match h.get ra with
  | some (.pdict entries) =>
      match lookupEntry entries field with
      | some va =>
          match h.get va with
          | some o =>
              match pyIntOf o with
              | some n =>
                  let alloc := h.alloc (.pstr (convert_timestamp_to_iso8601 n))
                  alloc.2.write ra (.pdict
                    (setEntry entries (field ++ "_iso8601") alloc.1))
              | none => h
          | none => h
      | none => h
  | _ => h

/-- The `result = data.copy()` allocation followed by the two
timestamp-field steps of the transform, giving the address of the
shallow copy and the heap after the in-place derived-field writes. -/
def stampCopy (entries : List (String × Nat)) (h : Heap) : Nat × Heap :=
  let alloc := h.alloc (.pdict entries)
  (alloc.1, processFieldH alloc.1 "updated" (processFieldH alloc.1 "created" alloc.2))

/-- The `result[key] = <recursed value>` write of the recursion loop:
replace the binding of `k` in the dictionary at `ra` with address `r`. -/
def writeBack (ra : Nat) (k : String) (r : Nat) (h : Heap) : Heap :=
  match h.get ra with
  | some (.pdict cur) => h.write ra (.pdict (setEntry cur k r))
  | _ => h

mutual

/-- Heap-level embedding of `add_iso8601_timestamps`: on a dictionary,
allocate a shallow copy, derive the timestamp siblings in place
(`stampCopy`), then rewrite each container-valued entry of the copy to
the recursively transformed address; on a list, build a fresh list of
the recursively processed element addresses; any other object is
returned as itself, the same address, untouched.  Recursion is bounded
by explicit fuel; with fuel 0 the value is returned unprocessed. -/
def addIsoH : Nat → Nat → Heap → Nat × Heap
  | 0, a, h => (a, h)
  | fuel + 1, a, h =>
      match h.get a with
      | some (.pdict entries) =>
          match (stampCopy entries h).2.get (stampCopy entries h).1 with
          | some (.pdict cur) =>
              ((stampCopy entries h).1,
               recurseEntriesH fuel (stampCopy entries h).1 cur (stampCopy entries h).2)
          | _ => stampCopy entries h
      | some (.plist elems) =>
          (recurseElemsH fuel elems h).2.alloc (.plist (recurseElemsH fuel elems h).1)
      | _ => (a, h)
termination_by fuel _ _ => (fuel, 0)

/-- The `for key, value in result.items()` loop: for each
container-valued entry, transform the value and write the resulting
address over the entry of the result dictionary at `ra`. -/
def recurseEntriesH : Nat → Nat → List (String × Nat) → Heap → Heap
  | _, _, [], h => h
  | fuel, ra, (k, va) :: rest, h =>
      if isContainerAddr h va then
        recurseEntriesH fuel ra rest
          (writeBack ra k (addIsoH fuel va h).1 (addIsoH fuel va h).2)
      else
        recurseEntriesH fuel ra rest h
termination_by fuel _ l _ => (fuel, l.length + 1)

/-- The `[add_iso8601_timestamps(item) for item in data]` comprehension:
the addresses of the processed items, in order. -/
def recurseElemsH : Nat → List Nat → Heap → List Nat × Heap
  | _, [], h => ([], h)
  | fuel, a :: rest, h =>
      ((addIsoH fuel a h).1 :: (recurseElemsH fuel rest (addIsoH fuel a h).2).1,
       (recurseElemsH fuel rest (addIsoH fuel a h).2).2)
termination_by fuel l _ => (fuel, l.length + 1)

end

/-- Reading the JSON value rooted at an address back off the heap, with
fuel bounding the depth. -/
def decodeH : Nat → Nat → Heap → Option JsonValue
  | 0, _, _ => none
  | fuel + 1, a, h =>
      match h.get a with
      | none => none
      | some .pnull => some .null
      | some (.pbool b) => some (.bool b)
      | some (.pint n) => some (.int n)
      | some (.pstr s) => some (.str s)
      | some (.plist elems) =>
          (elems.mapM fun e => decodeH fuel e h).map JsonValue.arr
      | some (.pdict entries) =>
          (entries.mapM fun kv => (decodeH fuel kv.2 h).map fun v => (kv.1, v)).map
            JsonValue.obj

/-- A concrete tag of the demonstration collaborator below. -/
def deployTag : Tag :=
  ⟨"6-1", .obj [("id", .str "6-1"), ("name", .str "deploy")]⟩

/-- A second concrete tag of the demonstration collaborator below. -/
def urgentTag : Tag :=
  ⟨"6-2", .obj [("id", .str "6-2"), ("name", .str "urgent")]⟩

/-- A concrete collaborator used to instantiate the engine theorems:
"deploy" and "urgent" resolve, "boom" makes the directory raise, any
other name is a miss; each store operation raises on issue "ERR-1" and
succeeds elsewhere, removal reporting true only for tag id "6-1". -/
def demoApi : IssuesClient where
  get_tags := fun _ limit =>
    if limit = 0 then .error "list exploded"
    else .ok (.arr [deployTag.body, urgentTag.body])
  get_issue_tags := fun issue_id =>
    if issue_id = "ERR-1" then .error "issue tags exploded" else .ok (.arr [])
  find_tag_by_name := fun name =>
    if name = "deploy" then .ok (some deployTag)
    else if name = "urgent" then .ok (some urgentTag)
    else if name = "boom" then .error "directory exploded"
    else .ok none
  add_tag_to_issue := fun issue_id _ =>
    if issue_id = "ERR-1" then .error "add exploded"
    else .ok (.obj [("idReadable", .str issue_id)])
  remove_tag_from_issue := fun issue_id tag_id =>
    if issue_id = "ERR-1" then .error "remove exploded"
    else if tag_id = "6-1" then .ok true else .ok false
  set_issue_tags := fun issue_id _ =>
    if issue_id = "ERR-1" then .error "set exploded"
    else .ok (.obj [("idReadable", .str issue_id)])
  remove_all_tags_from_issue := fun issue_id =>
    if issue_id = "ERR-1" then .error "clear exploded"
    else .ok (.obj [("idReadable", .str issue_id)])

/-- A concrete two-object heap: address 0 holds the dictionary
`{"created": <addr 1>}` and address 1 the integer 1700000000000. -/
def demoHeap : Heap :=
  ⟨fun b => if b = 0 then some (.pdict [("created", 1)])
    else if b = 1 then some (.pint 1700000000000) else none, 2⟩

/-!
Theorems.  First the dictionary and unfolding lemmas the claim proofs
share, then one theorem per claim (with its witness or counterexample).
-/

/-- Reading back the key just written gives the written value. -/
theorem lookupKey_setKey_self (l : List (String × JsonValue)) (k : String)
    (v : JsonValue) : lookupKey (setKey l k v) k = some v := by
  induction l with
  | nil => simp [setKey, lookupKey]
  | cons hd tl ih =>
      by_cases hk : hd.1 = k
      · obtain ⟨k', v'⟩ := hd
        simp only [setKey] at *
        rw [if_pos hk, lookupKey, if_pos rfl]
      · obtain ⟨k', v'⟩ := hd
        simp only [setKey] at *
        rw [if_neg hk, lookupKey, if_neg hk]
        exact ih

/-- Writing one key leaves every other key's value alone. -/
theorem lookupKey_setKey_ne (l : List (String × JsonValue)) (k k' : String)
    (v : JsonValue) (hne : k' ≠ k) :
    lookupKey (setKey l k v) k' = lookupKey l k' := by
  induction l with
  | nil =>
      simp only [setKey, lookupKey]
      rw [if_neg (fun h => hne h.symm)]
  | cons hd tl ih =>
      obtain ⟨k₀, v₀⟩ := hd
      simp only [setKey]
      by_cases hk : k₀ = k
      · rw [if_pos hk, lookupKey, lookupKey, if_neg (fun h => hne h.symm),
          if_neg (fun h => hne (hk ▸ h).symm)]
      · rw [if_neg hk, lookupKey, lookupKey]
        by_cases hk' : k₀ = k'
        · rw [if_pos hk', if_pos hk']
        · rw [if_neg hk', if_neg hk']
          exact ih

/-- Writing the value a key already holds leaves the dictionary equal. -/
theorem setKey_eq_of_lookup (l : List (String × JsonValue)) (k : String)
    (v : JsonValue) (h : lookupKey l k = some v) : setKey l k v = l := by
  induction l with
  | nil => simp [lookupKey] at h
  | cons hd tl ih =>
      obtain ⟨k₀, v₀⟩ := hd
      simp only [lookupKey] at h
      simp only [setKey]
      by_cases hk : k₀ = k
      · rw [if_pos hk] at h ⊢
        obtain rfl := Option.some.inj h
        rw [hk]
      · rw [if_neg hk] at h ⊢
        rw [ih h]

/-- The keys after a write: the old keys, plus the written key. -/
theorem mem_keysOf_setKey (l : List (String × JsonValue)) (k k' : String)
    (v : JsonValue) : k' ∈ keysOf (setKey l k v) ↔ k' ∈ keysOf l ∨ k' = k := by
  induction l with
  | nil => simp [setKey, keysOf]
  | cons hd tl ih =>
      obtain ⟨k₀, v₀⟩ := hd
      simp only [setKey]
      by_cases hk : k₀ = k
      · rw [if_pos hk, hk]
        simp only [keysOf, List.map_cons, List.mem_cons]
        tauto
      · rw [if_neg hk]
        simp only [keysOf, List.map_cons, List.mem_cons] at ih ⊢
        rw [ih]
        tauto

/-- A binding of the written dictionary was a binding before, or is the
written one. -/
theorem mem_setKey (l : List (String × JsonValue)) (k : String) (v : JsonValue)
    (p : String × JsonValue) (hp : p ∈ setKey l k v) : p ∈ l ∨ p = (k, v) := by
  induction l with
  | nil => simp [setKey] at hp; simp [hp]
  | cons hd tl ih =>
      simp only [setKey] at hp
      by_cases hk : hd.1 = k
      · rw [if_pos hk] at hp
        rcases List.mem_cons.mp hp with h1 | h1
        · right; exact h1
        · left; exact List.mem_cons_of_mem _ h1
      · rw [if_neg hk] at hp
        rcases List.mem_cons.mp hp with h1 | h1
        · left; exact h1 ▸ List.mem_cons_self _ _
        · rcases ih h1 with h2 | h2
          · left; exact List.mem_cons_of_mem _ h2
          · right; exact h2

/-- Unfolding of the transform on a dictionary: derive the timestamp
siblings, then rewrite each container value recursively. -/
theorem add_iso8601_obj (kvs : List (String × JsonValue)) :
    add_iso8601_timestamps (.obj kvs) =
      .obj ((processTimestamps kvs).map fun kv => (kv.1, recContainer kv.2)) := by
  rw [add_iso8601_timestamps]
  congr 1
  rw [List.attach_map_val (processTimestamps kvs)
    (fun kv => (kv.1, if h : isContainer kv.2 then add_iso8601_timestamps kv.2 else kv.2))]
  apply List.map_congr_left
  intro p _
  simp [recContainer, dite_eq_ite]

/-- Unfolding of the transform on a list: process every item. -/
theorem add_iso8601_arr (xs : List JsonValue) :
    add_iso8601_timestamps (.arr xs) = .arr (xs.map add_iso8601_timestamps) := by
  rw [add_iso8601_timestamps]
  congr 1
  exact List.attach_map_val xs add_iso8601_timestamps

/-- The transform keeps every non-container value as it is. -/
theorem add_iso8601_scalar (v : JsonValue) (hv : isContainer v = false) :
    add_iso8601_timestamps v = v := by
  cases v with
  | null => simp [add_iso8601_timestamps]
  | bool b => simp [add_iso8601_timestamps]
  | int n => simp [add_iso8601_timestamps]
  | str s => simp [add_iso8601_timestamps]
  | arr xs => simp [isContainer] at hv
  | obj kvs => simp [isContainer] at hv

/-- The transform maps dictionaries to dictionaries and lists to lists,
so whether a value is a container never changes. -/
theorem isContainer_add_iso8601 (v : JsonValue) :
    isContainer (add_iso8601_timestamps v) = isContainer v := by
  cases v with
  | arr xs => rw [add_iso8601_arr]; rfl
  | obj kvs => rw [add_iso8601_obj]; rfl
  | null => simp [add_iso8601_timestamps]
  | bool b => simp [add_iso8601_timestamps]
  | int n => simp [add_iso8601_timestamps]
  | str s => simp [add_iso8601_timestamps]

/-- The per-value branch keeps integer-ness: recursion only touches
containers, and keeps containers containers. -/
theorem asPyInt_recContainer (v : JsonValue) :
    asPyInt (recContainer v) = asPyInt v := by
  unfold recContainer
  by_cases hv : isContainer v
  · rw [if_pos hv]
    cases v with
    | arr xs => rw [add_iso8601_arr]; rfl
    | obj kvs => rw [add_iso8601_obj]; rfl
    | null => simp [isContainer] at hv
    | bool b => simp [isContainer] at hv
    | int n => simp [isContainer] at hv
    | str s => simp [isContainer] at hv
  · rw [if_neg hv]

/-- Value lookup after the recursion rewrite: the recursively processed
value of the same key. -/
theorem lookupKey_mapRec (l : List (String × JsonValue)) (k : String) :
    lookupKey (l.map fun kv => (kv.1, recContainer kv.2)) k =
      (lookupKey l k).map recContainer := by
  induction l with
  | nil => simp [lookupKey]
  | cons hd tl ih =>
      obtain ⟨k₀, v₀⟩ := hd
      simp only [List.map_cons, lookupKey]
      by_cases hk : k₀ = k
      · rw [if_pos hk, if_pos hk]; rfl
      · rw [if_neg hk, if_neg hk]; exact ih

/-- Lookup of a key other than the derived one is untouched by a
timestamp-field step. -/
theorem lookupKey_processTimestampField_ne (l : List (String × JsonValue))
    (f k : String) (hk : k ≠ f ++ "_iso8601") :
    lookupKey (processTimestampField l f) k = lookupKey l k := by
  unfold processTimestampField
  rcases hl : lookupKey l f with _ | v
  · rfl
  · rcases hv : asPyInt v with _ | n
    · simp [hv]
    · simp only [hv]
      exact lookupKey_setKey_ne l _ k _ hk

/-- A timestamp-field step that does not fire (no such field, or not an
int) leaves the dictionary unchanged. -/
theorem processTimestampField_skip (l : List (String × JsonValue)) (f : String)
    (hskip : (lookupKey l f).bind asPyInt = none) :
    processTimestampField l f = l := by
  unfold processTimestampField
  rcases hl : lookupKey l f with _ | v
  · rfl
  · rw [hl] at hskip
    rcases hv : asPyInt v with _ | n
    · simp [hv]
    · simp [Option.bind, hv] at hskip

/-- A timestamp-field step that fires writes exactly the derived string
under the derived key. -/
theorem processTimestampField_fire (l : List (String × JsonValue)) (f : String)
    (v : JsonValue) (n : Int) (hl : lookupKey l f = some v) (hv : asPyInt v = some n) :
    processTimestampField l f =
      setKey l (f ++ "_iso8601") (.str (convert_timestamp_to_iso8601 n)) := by
  unfold processTimestampField
  simp only [hl, hv]

/-- Structural induction over JSON values that hands the inductive
hypothesis to every list element and every dictionary value. -/
theorem JsonValue.strongInduction {P : JsonValue → Prop}
    (hnull : P .null) (hbool : ∀ b, P (.bool b)) (hint : ∀ n, P (.int n))
    (hstr : ∀ s, P (.str s))
    (harr : ∀ xs, (∀ x ∈ xs, P x) → P (.arr xs))
    (hobj : ∀ kvs, (∀ kv ∈ kvs, P kv.2) → P (.obj kvs)) :
    ∀ v, P v
  | .null => hnull
  | .bool b => hbool b
  | .int n => hint n
  | .str s => hstr s
  | .arr xs =>
      harr xs (fun x _ =>
        JsonValue.strongInduction hnull hbool hint hstr harr hobj x)
  | .obj kvs =>
      hobj kvs (fun kv _ =>
        JsonValue.strongInduction hnull hbool hint hstr harr hobj kv.2)
termination_by v => sizeOf v
decreasing_by
  · rename_i hx
    have := List.sizeOf_lt_of_mem hx
    simp only [JsonValue.arr.sizeOf_spec]
    omega
  · rename_i hkv
    have := List.sizeOf_lt_of_mem hkv
    obtain ⟨k1, v1⟩ := kv
    simp only [JsonValue.obj.sizeOf_spec]
    simp only [Prod.mk.sizeOf_spec] at this
    omega

/-- A binding after a timestamp-field step was a binding before, or
carries a string value (the derived field). -/
theorem mem_processTimestampField (l : List (String × JsonValue)) (f : String)
    (p : String × JsonValue) (hp : p ∈ processTimestampField l f) :
    p ∈ l ∨ ∃ s, p.2 = JsonValue.str s := by
  unfold processTimestampField at hp
  rcases hl : lookupKey l f with _ | v
  · simp only [hl] at hp; left; exact hp
  · simp only [hl] at hp
    rcases hv : asPyInt v with _ | n
    · simp only [hv] at hp; left; exact hp
    · simp only [hv] at hp
      rcases mem_setKey _ _ _ _ hp with h1 | h1
      · left; exact h1
      · right; exact ⟨_, by rw [h1]⟩

/-- A binding after the timestamp loop was a binding of the input, or
carries a string value. -/
theorem mem_processTimestamps (kvs : List (String × JsonValue))
    (p : String × JsonValue) (hp : p ∈ processTimestamps kvs) :
    p ∈ kvs ∨ ∃ s, p.2 = JsonValue.str s := by
  rcases mem_processTimestampField _ _ _ hp with h1 | h1
  · exact mem_processTimestampField _ _ _ h1
  · right; exact h1

/-- The per-value branch keeps strings as they are. -/
theorem recContainer_str (s : String) :
    recContainer (.str s) = .str s := by
  unfold recContainer
  simp [isContainer]

/-- The per-value branch is idempotent on any value the transform is
idempotent on. -/
theorem recContainer_idem (v : JsonValue)
    (hv : add_iso8601_timestamps (add_iso8601_timestamps v) = add_iso8601_timestamps v) :
    recContainer (recContainer v) = recContainer v := by
  unfold recContainer
  by_cases h : isContainer v = true
  · rw [if_pos h, if_pos (by rw [isContainer_add_iso8601]; exact h), hv]
  · rw [if_neg h, if_neg h]

/-- Lookup of "created" or "updated" passes through the timestamp loop
untouched (only the derived keys are written). -/
theorem lookupKey_processTimestamps_field (kvs : List (String × JsonValue))
    (f : String) (hf : f = "created" ∨ f = "updated") :
    lookupKey (processTimestamps kvs) f = lookupKey kvs f := by
  unfold processTimestamps
  rcases hf with rfl | rfl
  · rw [lookupKey_processTimestampField_ne _ _ _ (by decide),
      lookupKey_processTimestampField_ne _ _ _ (by decide)]
  · rw [lookupKey_processTimestampField_ne _ _ _ (by decide),
      lookupKey_processTimestampField_ne _ _ _ (by decide)]

/-- On a dictionary the timestamp loop has already processed (and whose
values the recursion rewrite has already visited), running a
timestamp-field step again changes nothing: the derived sibling is
recomputed from the same integer and written over itself. -/
theorem processTimestampField_on_processed (kvs : List (String × JsonValue))
    (f : String) (hf : f = "created" ∨ f = "updated") :
    processTimestampField
      ((processTimestamps kvs).map fun kv => (kv.1, recContainer kv.2)) f =
      (processTimestamps kvs).map fun kv => (kv.1, recContainer kv.2) := by
  have hMf : lookupKey ((processTimestamps kvs).map fun kv => (kv.1, recContainer kv.2)) f =
      (lookupKey kvs f).map recContainer := by
    rw [lookupKey_mapRec, lookupKey_processTimestamps_field kvs f hf]
  rcases hl : lookupKey kvs f with _ | v
  · rw [hl] at hMf
    exact processTimestampField_skip _ _ (by rw [hMf]; rfl)
  · rw [hl] at hMf
    rcases hv : asPyInt v with _ | n
    · refine processTimestampField_skip _ _ ?_
      rw [hMf]
      simp [Option.bind, asPyInt_recContainer, hv]
    · rw [processTimestampField_fire _ f (recContainer v) n (by rw [hMf]; rfl)
        (by rw [asPyInt_recContainer]; exact hv)]
      apply setKey_eq_of_lookup
      rw [lookupKey_mapRec]
      have hiso : lookupKey (processTimestamps kvs) (f ++ "_iso8601") =
          some (.str (convert_timestamp_to_iso8601 n)) := by
        unfold processTimestamps
        rcases hf with rfl | rfl
        · rw [lookupKey_processTimestampField_ne _ _ _ (by decide),
            processTimestampField_fire kvs "created" v n hl hv]
          exact lookupKey_setKey_self _ _ _
        · have hl1 : lookupKey (processTimestampField kvs "created") "updated" = some v := by
            rw [lookupKey_processTimestampField_ne _ _ _ (by decide)]
            exact hl
          rw [processTimestampField_fire _ "updated" v n hl1 hv]
          exact lookupKey_setKey_self _ _ _
      rw [hiso]
      simp [recContainer_str]

/-- C9: the Response Normalization Transform is idempotent: transforming
an already transformed value changes nothing further — the derived
*_iso8601 string fields are not themselves treated as timestamps, and an
integer "created"/"updated" field re-derives the identical sibling
value, overwriting it with itself. -/
theorem add_iso8601_timestamps_idempotent :
    ∀ v, add_iso8601_timestamps (add_iso8601_timestamps v) = add_iso8601_timestamps v := by
  intro v
  induction v using JsonValue.strongInduction with
  | hnull => simp [add_iso8601_timestamps]
  | hbool b => simp [add_iso8601_timestamps]
  | hint n => simp [add_iso8601_timestamps]
  | hstr s => simp [add_iso8601_timestamps]
  | harr xs ih =>
      rw [add_iso8601_arr, add_iso8601_arr, List.map_map]
      congr 1
      exact List.map_congr_left fun x hx => ih x hx
  | hobj kvs ih =>
      rw [add_iso8601_obj kvs, add_iso8601_obj]
      have h1 := processTimestampField_on_processed kvs "created" (Or.inl rfl)
      have h2 := processTimestampField_on_processed kvs "updated" (Or.inr rfl)
      have hPT : processTimestamps
          ((processTimestamps kvs).map fun kv => (kv.1, recContainer kv.2)) =
          (processTimestamps kvs).map fun kv => (kv.1, recContainer kv.2) := by
        show processTimestampField (processTimestampField _ "created") "updated" = _
        rw [h1, h2]
      rw [hPT, List.map_map]
      congr 1
      apply List.map_congr_left
      intro p hp
      simp only [Function.comp]
      rcases mem_processTimestamps kvs p hp with hmem | ⟨s, hs⟩
      · rw [recContainer_idem p.2 (ih p hmem)]
      · rw [hs, recContainer_str, recContainer_str]

/-- The recursion rewrite keeps the key list unchanged. -/
theorem keysOf_mapRec (l : List (String × JsonValue)) :
    keysOf (l.map fun kv => (kv.1, recContainer kv.2)) = keysOf l := by
  unfold keysOf
  rw [List.map_map]
  rfl

/-- A timestamp-field step either leaves the dictionary unchanged or
writes exactly the derived string under the derived key, with the field
present as an integer. -/
theorem processTimestampField_cases (l : List (String × JsonValue)) (f : String) :
    processTimestampField l f = l ∨
    ∃ v n, lookupKey l f = some v ∧ asPyInt v = some n ∧
      processTimestampField l f =
        setKey l (f ++ "_iso8601") (.str (convert_timestamp_to_iso8601 n)) := by
  rcases hl : lookupKey l f with _ | v
  · left; exact processTimestampField_skip l f (by rw [hl]; rfl)
  · rcases hv : asPyInt v with _ | n
    · left
      exact processTimestampField_skip l f (by rw [hl]; simp [Option.bind, hv])
    · right
      exact ⟨v, n, rfl, hv, processTimestampField_fire l f v n hl hv⟩

/-- A key of the input dictionary is still a key after a
timestamp-field step. -/
theorem keysOf_processTimestampField_superset (l : List (String × JsonValue))
    (f k : String) (hk : k ∈ keysOf l) : k ∈ keysOf (processTimestampField l f) := by
  rcases processTimestampField_cases l f with heq | ⟨v, n, _, _, heq⟩
  · rw [heq]; exact hk
  · rw [heq]; exact (mem_keysOf_setKey l _ k _).mpr (Or.inl hk)

/-- A key after a timestamp-field step was a key before or is the
derived key. -/
theorem keysOf_processTimestampField_subset (l : List (String × JsonValue))
    (f k : String) (hk : k ∈ keysOf (processTimestampField l f)) :
    k ∈ keysOf l ∨ k = f ++ "_iso8601" := by
  rcases processTimestampField_cases l f with heq | ⟨v, n, _, _, heq⟩
  · rw [heq] at hk; left; exact hk
  · rw [heq] at hk
    exact (mem_keysOf_setKey l _ k _).mp hk

/-- C7 amended: the transform is additive up to the derived keys: no
key is deleted; the only keys inserted are "created_iso8601" and
"updated_iso8601", and only next to an integer-valued "created" or
"updated" sibling; and the value of every key other than the two
derived keys is preserved, up to the recursion into container values.
(The derived keys themselves may be overwritten, as the counterexample
shows, which is the one departure from the claim as stated.) -/
theorem add_iso8601_additive (kvs : List (String × JsonValue)) :
    (∀ k, k ∈ keysOf kvs → k ∈ keysOf (objFields (add_iso8601_timestamps (.obj kvs))))
    ∧ (∀ k, k ∈ keysOf (objFields (add_iso8601_timestamps (.obj kvs))) →
        k ∈ keysOf kvs ∨ k = "created_iso8601" ∨ k = "updated_iso8601")
    ∧ (∀ k v, k ≠ "created_iso8601" → k ≠ "updated_iso8601" →
        lookupKey kvs k = some v →
        lookupKey (objFields (add_iso8601_timestamps (.obj kvs))) k =
          some (recContainer v))
    ∧ (∀ k, k ∈ keysOf (objFields (add_iso8601_timestamps (.obj kvs))) →
        k ∉ keysOf kvs →
        (k = "created_iso8601" ∧
          ∃ v n, lookupKey kvs "created" = some v ∧ asPyInt v = some n)
        ∨ (k = "updated_iso8601" ∧
          ∃ v n, lookupKey kvs "updated" = some v ∧ asPyInt v = some n)) := by
  rw [add_iso8601_obj]
  simp only [objFields, keysOf_mapRec]
  refine ⟨?_, ?_, ?_, ?_⟩
  · intro k hk
    exact keysOf_processTimestampField_superset _ _ _
      (keysOf_processTimestampField_superset _ _ _ hk)
  · intro k hk
    rcases keysOf_processTimestampField_subset _ _ _ hk with h1 | h1
    · rcases keysOf_processTimestampField_subset _ _ _ h1 with h2 | h2
      · left; exact h2
      · right; left; exact h2
    · right; right; exact h1
  · intro k v hk1 hk2 hl
    rw [lookupKey_mapRec]
    unfold processTimestamps
    rw [lookupKey_processTimestampField_ne _ _ _ hk2,
      lookupKey_processTimestampField_ne _ _ _ hk1, hl]
    rfl
  · intro k hk hnot
    rcases keysOf_processTimestampField_subset _ _ _ hk with h1 | h1
    · rcases keysOf_processTimestampField_subset _ _ _ h1 with h2 | h2
      · exact absurd h2 hnot
      · left
        refine ⟨h2, ?_⟩
        rcases processTimestampField_cases kvs "created" with heq | ⟨v, n, hv1, hv2, _⟩
        · rw [heq] at h1; exact absurd (h2 ▸ h1) (h2 ▸ hnot)
        · exact ⟨v, n, hv1, hv2⟩
    · right
      refine ⟨h1, ?_⟩
      rcases processTimestampField_cases (processTimestampField kvs "created")
          "updated" with heq | ⟨v, n, hv1, hv2, _⟩
      · rw [show processTimestamps kvs =
            processTimestampField (processTimestampField kvs "created") "updated"
            from rfl, heq] at hk
        rcases keysOf_processTimestampField_subset _ _ _ (h1 ▸ hk) with h3 | h3
        · exact absurd (h1 ▸ h3) (h1 ▸ hnot)
        · simp at h3
      · rw [lookupKey_processTimestampField_ne _ _ _ (by decide)] at hv1
        exact ⟨v, n, hv1, hv2⟩

/-- C7 counterexample: on a mapping that already carries a
"created_iso8601" key next to an integer "created", the transform
overwrites that existing key's value (with the derived string) although
the key's value is not recursed into — so "every value that is not
itself recursed into is unchanged" fails, as does "no existing key is
altered". -/
theorem add_iso8601_additive_counterexample :
    lookupKey [("created", JsonValue.int 0), ("created_iso8601", JsonValue.str "bogus")]
        "created_iso8601" = some (JsonValue.str "bogus") ∧
    lookupKey (objFields (add_iso8601_timestamps
        (.obj [("created", JsonValue.int 0), ("created_iso8601", JsonValue.str "bogus")])))
        "created_iso8601" = some (JsonValue.str "1970-01-01T00:00:00+00:00") ∧
    JsonValue.str "1970-01-01T00:00:00+00:00" ≠ JsonValue.str "bogus" := by
  refine ⟨rfl, ?_, ?_⟩
  · rw [add_iso8601_obj]
    rfl
  · intro h
    injection h with h'
    exact absurd h' (by decide)

/-- C7 witness: on a concrete mapping the transform keeps the key "a"
with its untouched string value and keeps the key "created". -/
theorem add_iso8601_additive_witness :
    ("a" ∈ keysOf (objFields (add_iso8601_timestamps
        (.obj [("a", JsonValue.str "x"), ("created", JsonValue.int 5)])))) ∧
    lookupKey (objFields (add_iso8601_timestamps
        (.obj [("a", JsonValue.str "x"), ("created", JsonValue.int 5)]))) "a" =
      some (recContainer (JsonValue.str "x")) :=
  ⟨(add_iso8601_additive [("a", JsonValue.str "x"), ("created", JsonValue.int 5)]).1
      "a" (by decide),
   (add_iso8601_additive [("a", JsonValue.str "x"), ("created", JsonValue.int 5)]).2.2.1
      "a" (JsonValue.str "x") (by decide) (by decide) rfl⟩

/-- C1 amended: an integer "created"/"updated" value out of the
representable range does not have its derived field skipped: the
original integer field is left untouched, and the "<field>_iso8601"
sibling is still added, holding `str(timestamp_ms)` — the decimal
rendering of the raw integer — instead of an ISO-8601 instant. -/
theorem add_iso8601_invalid_timestamp (kvs : List (String × JsonValue))
    (f : String) (n : Int) (hf : f = "created" ∨ f = "updated")
    (hl : lookupKey kvs f = some (.int n))
    (hrange : n * 1000 < minDatetimeMicro ∨ maxDatetimeMicro < n * 1000) :
    lookupKey (objFields (add_iso8601_timestamps (.obj kvs))) f = some (.int n) ∧
    lookupKey (objFields (add_iso8601_timestamps (.obj kvs))) (f ++ "_iso8601") =
      some (.str (toString n)) := by
  have hconv : convert_timestamp_to_iso8601 n = toString n := by
    unfold convert_timestamp_to_iso8601
    rw [if_pos hrange]
  rw [add_iso8601_obj]
  simp only [objFields]
  constructor
  · rw [lookupKey_mapRec, lookupKey_processTimestamps_field kvs f hf, hl]
    rfl
  · rw [lookupKey_mapRec]
    have hiso : lookupKey (processTimestamps kvs) (f ++ "_iso8601") =
        some (.str (convert_timestamp_to_iso8601 n)) := by
      unfold processTimestamps
      rcases hf with rfl | rfl
      · rw [lookupKey_processTimestampField_ne _ _ _ (by decide),
          processTimestampField_fire kvs "created" (.int n) n hl rfl]
        exact lookupKey_setKey_self _ _ _
      · have hl1 : lookupKey (processTimestampField kvs "created") "updated" =
            some (.int n) := by
          rw [lookupKey_processTimestampField_ne _ _ _ (by decide)]
          exact hl
        rw [processTimestampField_fire _ "updated" (.int n) n hl1 rfl]
        exact lookupKey_setKey_self _ _ _
    rw [hiso, hconv]
    simp [recContainer_str]

/-- C1 counterexample: for the out-of-range timestamp 10^18 the claim
says no "created_iso8601" key is added, but the transform adds it,
holding the decimal string of the raw integer. -/
theorem add_iso8601_invalid_timestamp_counterexample :
    add_iso8601_timestamps (.obj [("created", JsonValue.int 1000000000000000000)]) =
      .obj [("created", JsonValue.int 1000000000000000000),
            ("created_iso8601", JsonValue.str "1000000000000000000")] ∧
    "created_iso8601" ∈ keysOf (objFields (add_iso8601_timestamps
      (.obj [("created", JsonValue.int 1000000000000000000)]))) := by
  constructor
  · rw [add_iso8601_obj]
    rfl
  · rw [add_iso8601_obj]
    decide

/-- C1 amended witness: the amended statement instantiated at the
out-of-range timestamp 10^18 in a one-field mapping. -/
theorem add_iso8601_invalid_timestamp_witness :
    lookupKey (objFields (add_iso8601_timestamps
        (.obj [("created", JsonValue.int 1000000000000000000)]))) "created" =
      some (JsonValue.int 1000000000000000000) ∧
    lookupKey (objFields (add_iso8601_timestamps
        (.obj [("created", JsonValue.int 1000000000000000000)]))) ("created" ++ "_iso8601") =
      some (JsonValue.str (toString (1000000000000000000 : Int))) :=
  add_iso8601_invalid_timestamp [("created", JsonValue.int 1000000000000000000)]
    "created" 1000000000000000000 (Or.inl rfl) rfl (by decide)

/-- When the directory answers every lookup (no exception), the
resolution loop partitions the names in input order: the resolved ids,
the missing names, and one lookup call per name. -/
theorem resolveTagNames_ok (api : IssuesClient) (names : List String)
    (hok : ∀ n ∈ names, ∃ r, api.find_tag_by_name n = Except.ok r) :
    resolveTagNames api names =
      (.ok (names.filterMap (resolvedTagId api), names.filter (isMissingTag api)),
       names.map ApiCall.findTagByName) := by
  induction names with
  | nil => rfl
  | cons name rest ih =>
      obtain ⟨r, hr⟩ := hok name (List.mem_cons_self _ _)
      have hrest := ih (fun n hn => hok n (List.mem_cons_of_mem _ hn))
      unfold resolveTagNames
      cases r with
      | none =>
          simp only [hr, hrest]
          simp [resolvedTagId, isMissingTag, hr, Except.map, List.filterMap_cons,
            List.filter_cons]
      | some tag =>
          simp only [hr, hrest]
          simp [resolvedTagId, isMissingTag, hr, Except.map, List.filterMap_cons,
            List.filter_cons]

/-- A directory exception inside the resolution loop aborts it. -/
theorem resolveTagNames_error (api : IssuesClient) (pre : List String)
    (n : String) (post : List String) (e : String)
    (hok : ∀ m ∈ pre, ∃ r, api.find_tag_by_name m = Except.ok r)
    (herr : api.find_tag_by_name n = Except.error e) :
    ∃ calls, resolveTagNames api (pre ++ n :: post) = (.error e, calls) := by
  induction pre with
  | nil =>
      refine ⟨[.findTagByName n], ?_⟩
      simp only [List.nil_append]
      unfold resolveTagNames
      simp only [herr]
  | cons m pre' ih =>
      obtain ⟨r, hr⟩ := hok m (List.mem_cons_self _ _)
      obtain ⟨calls, hc⟩ := ih (fun x hx => hok x (List.mem_cons_of_mem _ hx))
      simp only [List.cons_append]
      unfold resolveTagNames
      cases r with
      | none =>
          refine ⟨.findTagByName m :: calls, ?_⟩
          simp only [hr, hc]
          rfl
      | some tag =>
          refine ⟨.findTagByName m :: calls, ?_⟩
          simp only [hr, hc]
          rfl

/-- C2: set_issue_tags is all-or-nothing.  When the directory answers
every lookup, either some name misses — then the response is the
TagsNotFound error listing every missing name in input order joined by
", " with the discovery hint, and the trace holds the lookups only, no
set-tags call — or every name resolves, and the trace ends with exactly
one set-tags call carrying the resolved ids in input order. -/
theorem set_issue_tags_all_or_nothing (api : IssuesClient) (issue_id : String)
    (tag_names : List String)
    (hok : ∀ n ∈ tag_names, ∃ r, api.find_tag_by_name n = Except.ok r) :
    (tag_names.filter (isMissingTag api) ≠ [] →
      (Tags.set_issue_tags api issue_id tag_names).1 =
        errorResponse ("Tags not found: " ++
          String.intercalate ", " (tag_names.filter (isMissingTag api)) ++
          ". Use get_available_tags() to see available tags.") ∧
      (Tags.set_issue_tags api issue_id tag_names).2 =
        tag_names.map ApiCall.findTagByName ∧
      (∀ i ids, ApiCall.setIssueTags i ids ∉
        (Tags.set_issue_tags api issue_id tag_names).2)) ∧
    (tag_names.filter (isMissingTag api) = [] →
      (Tags.set_issue_tags api issue_id tag_names).2 =
        tag_names.map ApiCall.findTagByName ++
          [ApiCall.setIssueTags issue_id (tag_names.filterMap (resolvedTagId api))]) := by
  unfold Tags.set_issue_tags
  rw [resolveTagNames_ok api tag_names hok]
  rcases hm : tag_names.filter (isMissingTag api) with _ | ⟨m, ms⟩
  · constructor
    · intro hne; exact absurd rfl hne
    · intro _
      split
      · rename_i e calls heq
        injection heq with h1 h2
        exact Except.noConfusion h1
      · rename_i tag_ids missing calls heq
        injection heq with h1 h2
        injection h1 with h3
        injection h3 with h4 h5
        subst h2; subst h4; subst h5
        split
        · rename_i head tail heq2
          exact List.noConfusion heq2
        · split <;> rfl
  · constructor
    · intro _
      refine ⟨rfl, rfl, ?_⟩
      intro i ids hmem
      rw [List.mem_map] at hmem
      obtain ⟨x, _, hx⟩ := hmem
      exact ApiCall.noConfusion hx
    · intro hcontra
      exact absurd hcontra (List.cons_ne_nil m ms)

/-- C2 witness: with the concrete collaborator, ["deploy", "ghost"] has
the miss "ghost", so the response is the TagsNotFound error and the
trace holds the two lookups and no set-tags call; ["deploy", "urgent"]
fully resolves, so the trace ends with the one set-tags call carrying
["6-1", "6-2"] in input order. -/
theorem set_issue_tags_all_or_nothing_witness :
    ((Tags.set_issue_tags demoApi "DEMO-123" ["deploy", "ghost"]).1 =
      errorResponse ("Tags not found: " ++
        String.intercalate ", " (["deploy", "ghost"].filter (isMissingTag demoApi)) ++
        ". Use get_available_tags() to see available tags.") ∧
     (Tags.set_issue_tags demoApi "DEMO-123" ["deploy", "ghost"]).2 =
      ["deploy", "ghost"].map ApiCall.findTagByName ∧
     (∀ i ids, ApiCall.setIssueTags i ids ∉
        (Tags.set_issue_tags demoApi "DEMO-123" ["deploy", "ghost"]).2)) ∧
    (Tags.set_issue_tags demoApi "DEMO-123" ["deploy", "urgent"]).2 =
      ["deploy", "urgent"].map ApiCall.findTagByName ++
        [ApiCall.setIssueTags "DEMO-123"
          (["deploy", "urgent"].filterMap (resolvedTagId demoApi))] :=
  ⟨(set_issue_tags_all_or_nothing demoApi "DEMO-123" ["deploy", "ghost"]
      (by intro n hn; simp at hn; rcases hn with rfl | rfl
          · exact ⟨some deployTag, rfl⟩
          · exact ⟨none, rfl⟩)).1 (by decide),
   (set_issue_tags_all_or_nothing demoApi "DEMO-123" ["deploy", "urgent"]
      (by intro n hn; simp at hn; rcases hn with rfl | rfl
          · exact ⟨some deployTag, rfl⟩
          · exact ⟨some urgentTag, rfl⟩)).2 (by decide)⟩

/-- C10: set_issue_tags on the empty name list performs no directory
lookup, rejects nothing, and issues exactly one set-tags call with the
empty id list (an empty replace is a clear); when the store call
succeeds its formatted result is returned. -/
theorem set_issue_tags_empty_list (api : IssuesClient) (issue_id : String) :
    (Tags.set_issue_tags api issue_id []).2 = [ApiCall.setIssueTags issue_id []] ∧
    (∀ r, api.set_issue_tags issue_id [] = Except.ok r →
      (Tags.set_issue_tags api issue_id []).1 = format_json_response r) := by
  unfold Tags.set_issue_tags
  constructor
  · show (match api.set_issue_tags issue_id [] with
      | Except.ok result =>
          (format_json_response result, [] ++ [ApiCall.setIssueTags issue_id []])
      | Except.error e =>
          (errorResponse e, [] ++ [ApiCall.setIssueTags issue_id []])).2 =
      [ApiCall.setIssueTags issue_id []]
    split <;> rfl
  · intro r hr
    show (match api.set_issue_tags issue_id [] with
      | Except.ok result =>
          (format_json_response result, [] ++ [ApiCall.setIssueTags issue_id []])
      | Except.error e =>
          (errorResponse e, [] ++ [ApiCall.setIssueTags issue_id []])).1 =
      format_json_response r
    rw [hr]

/-- C10 witness: the empty replace against the concrete collaborator. -/
theorem set_issue_tags_empty_list_witness :
    (Tags.set_issue_tags demoApi "DEMO-123" []).2 =
      [ApiCall.setIssueTags "DEMO-123" []] ∧
    (Tags.set_issue_tags demoApi "DEMO-123" []).1 =
      format_json_response (.obj [("idReadable", .str "DEMO-123")]) :=
  ⟨(set_issue_tags_empty_list demoApi "DEMO-123").1,
   (set_issue_tags_empty_list demoApi "DEMO-123").2
      (.obj [("idReadable", .str "DEMO-123")]) rfl⟩

/-- C4: add_tag_to_issue on an unresolved name returns the TagNotFound
error carrying the literal tag name and the get_available_tags() hint,
and issues no store mutation (the trace is the lone directory lookup);
on a resolved name it issues exactly one add-by-id call with the
resolved id and, when the store answers, returns its result unchanged
modulo normalization. -/
theorem add_tag_to_issue_resolution (api : IssuesClient) (issue_id tag_name : String) :
    (api.find_tag_by_name tag_name = Except.ok none →
      Tags.add_tag_to_issue api issue_id tag_name =
        (errorResponse ("Tag '" ++ tag_name ++
            "' not found. Use get_available_tags() to see available tags."),
         [ApiCall.findTagByName tag_name])) ∧
    (∀ tag, api.find_tag_by_name tag_name = Except.ok (some tag) →
      (Tags.add_tag_to_issue api issue_id tag_name).2 =
        [ApiCall.findTagByName tag_name, ApiCall.addTagToIssue issue_id tag.id] ∧
      (∀ r, api.add_tag_to_issue issue_id tag.id = Except.ok r →
        (Tags.add_tag_to_issue api issue_id tag_name).1 = format_json_response r)) := by
  constructor
  · intro h
    unfold Tags.add_tag_to_issue
    rw [h]
  · intro tag h
    unfold Tags.add_tag_to_issue
    rw [h]
    constructor
    · show (match api.add_tag_to_issue issue_id tag.id with
        | Except.ok result => (format_json_response result,
            [ApiCall.findTagByName tag_name, ApiCall.addTagToIssue issue_id tag.id])
        | Except.error e => (errorResponse e,
            [ApiCall.findTagByName tag_name, ApiCall.addTagToIssue issue_id tag.id])).2 = _
      split <;> rfl
    · intro r hr
      show (match api.add_tag_to_issue issue_id tag.id with
        | Except.ok result => (format_json_response result,
            [ApiCall.findTagByName tag_name, ApiCall.addTagToIssue issue_id tag.id])
        | Except.error e => (errorResponse e,
            [ApiCall.findTagByName tag_name, ApiCall.addTagToIssue issue_id tag.id])).1 = _
      rw [hr]

/-- C4 witness: "ghost" misses (error with hint, lookup-only trace);
"deploy" resolves to id "6-1" and the add call's result comes back
normalized. -/
theorem add_tag_to_issue_resolution_witness :
    Tags.add_tag_to_issue demoApi "DEMO-123" "ghost" =
      (errorResponse ("Tag '" ++ "ghost" ++
          "' not found. Use get_available_tags() to see available tags."),
       [ApiCall.findTagByName "ghost"]) ∧
    (Tags.add_tag_to_issue demoApi "DEMO-123" "deploy").2 =
      [ApiCall.findTagByName "deploy", ApiCall.addTagToIssue "DEMO-123" deployTag.id] ∧
    (Tags.add_tag_to_issue demoApi "DEMO-123" "deploy").1 =
      format_json_response (.obj [("idReadable", .str "DEMO-123")]) :=
  ⟨(add_tag_to_issue_resolution demoApi "DEMO-123" "ghost").1 rfl,
   ((add_tag_to_issue_resolution demoApi "DEMO-123" "deploy").2 deployTag rfl).1,
   ((add_tag_to_issue_resolution demoApi "DEMO-123" "deploy").2 deployTag rfl).2
      (.obj [("idReadable", .str "DEMO-123")]) rfl⟩

/-- C5: remove_tag_from_issue on a name the directory resolves always
issues the remove-by-id call; a store verdict of false yields the
RemovalFailed error naming tag and issue (returned, not raised), and a
verdict of true yields the success confirmation with the documented
message. -/
theorem remove_tag_from_issue_semantics (api : IssuesClient)
    (issue_id tag_name : String) (tag : Tag)
    (hfind : api.find_tag_by_name tag_name = Except.ok (some tag)) :
    (Tags.remove_tag_from_issue api issue_id tag_name).2 =
      [ApiCall.findTagByName tag_name, ApiCall.removeTagFromIssue issue_id tag.id] ∧
    (api.remove_tag_from_issue issue_id tag.id = Except.ok false →
      (Tags.remove_tag_from_issue api issue_id tag_name).1 =
        errorResponse ("Failed to remove tag '" ++ tag_name ++ "' from issue " ++ issue_id)) ∧
    (api.remove_tag_from_issue issue_id tag.id = Except.ok true →
      (Tags.remove_tag_from_issue api issue_id tag_name).1 =
        format_json_response (.obj [("success", .bool true),
          ("message", .str ("Tag '" ++ tag_name ++ "' removed from issue " ++ issue_id))])) := by
  unfold Tags.remove_tag_from_issue
  rw [hfind]
  refine ⟨?_, ?_, ?_⟩
  · show (match api.remove_tag_from_issue issue_id tag.id with
      | Except.ok true => (format_json_response (.obj [("success", .bool true),
          ("message", .str ("Tag '" ++ tag_name ++ "' removed from issue " ++ issue_id))]),
          [ApiCall.findTagByName tag_name, ApiCall.removeTagFromIssue issue_id tag.id])
      | Except.ok false => (errorResponse
          ("Failed to remove tag '" ++ tag_name ++ "' from issue " ++ issue_id),
          [ApiCall.findTagByName tag_name, ApiCall.removeTagFromIssue issue_id tag.id])
      | Except.error e => (errorResponse e,
          [ApiCall.findTagByName tag_name, ApiCall.removeTagFromIssue issue_id tag.id])).2 = _
    split <;> rfl
  · intro h
    show (match api.remove_tag_from_issue issue_id tag.id with
      | Except.ok true => (format_json_response (.obj [("success", .bool true),
          ("message", .str ("Tag '" ++ tag_name ++ "' removed from issue " ++ issue_id))]),
          [ApiCall.findTagByName tag_name, ApiCall.removeTagFromIssue issue_id tag.id])
      | Except.ok false => (errorResponse
          ("Failed to remove tag '" ++ tag_name ++ "' from issue " ++ issue_id),
          [ApiCall.findTagByName tag_name, ApiCall.removeTagFromIssue issue_id tag.id])
      | Except.error e => (errorResponse e,
          [ApiCall.findTagByName tag_name, ApiCall.removeTagFromIssue issue_id tag.id])).1 = _
    rw [h]
  · intro h
    show (match api.remove_tag_from_issue issue_id tag.id with
      | Except.ok true => (format_json_response (.obj [("success", .bool true),
          ("message", .str ("Tag '" ++ tag_name ++ "' removed from issue " ++ issue_id))]),
          [ApiCall.findTagByName tag_name, ApiCall.removeTagFromIssue issue_id tag.id])
      | Except.ok false => (errorResponse
          ("Failed to remove tag '" ++ tag_name ++ "' from issue " ++ issue_id),
          [ApiCall.findTagByName tag_name, ApiCall.removeTagFromIssue issue_id tag.id])
      | Except.error e => (errorResponse e,
          [ApiCall.findTagByName tag_name, ApiCall.removeTagFromIssue issue_id tag.id])).1 = _
    rw [h]

/-- C5 witness: "urgent" resolves to id "6-2", which the concrete store
reports as not removed (false), giving the RemovalFailed error;
"deploy" resolves to id "6-1", reported removed (true), giving the
success confirmation. -/
theorem remove_tag_from_issue_semantics_witness :
    (Tags.remove_tag_from_issue demoApi "DEMO-123" "urgent").1 =
      errorResponse ("Failed to remove tag '" ++ "urgent" ++ "' from issue " ++ "DEMO-123") ∧
    (Tags.remove_tag_from_issue demoApi "DEMO-123" "urgent").2 =
      [ApiCall.findTagByName "urgent", ApiCall.removeTagFromIssue "DEMO-123" urgentTag.id] ∧
    (Tags.remove_tag_from_issue demoApi "DEMO-123" "deploy").1 =
      format_json_response (.obj [("success", .bool true),
        ("message", .str ("Tag '" ++ "deploy" ++ "' removed from issue " ++ "DEMO-123"))]) :=
  ⟨(remove_tag_from_issue_semantics demoApi "DEMO-123" "urgent" urgentTag rfl).2.1 rfl,
   (remove_tag_from_issue_semantics demoApi "DEMO-123" "urgent" urgentTag rfl).1,
   (remove_tag_from_issue_semantics demoApi "DEMO-123" "deploy" deployTag rfl).2.2 rfl⟩

/-- C6: find_tag_by_name on a miss returns the TagNotFound error naming
the tag with no discovery hint (its message differs from the hinted one
add_tag_to_issue uses), and issues no mutation (the trace is the lone
lookup); on a hit it returns the resolved tag unchanged modulo
normalization. -/
theorem find_tag_by_name_semantics (api : IssuesClient) (tag_name : String) :
    (api.find_tag_by_name tag_name = Except.ok none →
      Tags.find_tag_by_name api tag_name =
        (errorResponse ("Tag '" ++ tag_name ++ "' not found"),
         [ApiCall.findTagByName tag_name])) ∧
    (∀ tag, api.find_tag_by_name tag_name = Except.ok (some tag) →
      Tags.find_tag_by_name api tag_name =
        (format_json_response tag.body, [ApiCall.findTagByName tag_name])) ∧
    ("Tag '" ++ tag_name ++ "' not found" : String) ≠
      "Tag '" ++ tag_name ++ "' not found. Use get_available_tags() to see available tags." := by
  refine ⟨?_, ?_, ?_⟩
  · intro h
    unfold Tags.find_tag_by_name
    rw [h]
  · intro tag h
    unfold Tags.find_tag_by_name
    rw [h]
  · intro h
    have hl := congrArg String.length h
    have hassoc : ("Tag '" ++ tag_name ++ "' not found. Use get_available_tags() to see available tags." : String) =
        "Tag '" ++ tag_name ++ ("' not found" ++ ". Use get_available_tags() to see available tags.") := by
      simp [String.append_assoc]
    rw [hassoc] at hl
    simp only [String.length_append] at hl
    have h1 : ("' not found" : String).length = 11 := rfl
    have h2 : (". Use get_available_tags() to see available tags." : String).length = 49 := rfl
    omega

/-- C6 witness: the miss "ghost" and the hit "deploy" against the
concrete collaborator. -/
theorem find_tag_by_name_semantics_witness :
    Tags.find_tag_by_name demoApi "ghost" =
      (errorResponse ("Tag '" ++ "ghost" ++ "' not found"),
       [ApiCall.findTagByName "ghost"]) ∧
    Tags.find_tag_by_name demoApi "deploy" =
      (format_json_response deployTag.body, [ApiCall.findTagByName "deploy"]) :=
  ⟨(find_tag_by_name_semantics demoApi "ghost").1 rfl,
   (find_tag_by_name_semantics demoApi "deploy").2.1 deployTag rfl⟩

/-- C3: no exception crosses an operation boundary.  Whenever a
collaborator call raises (at any call site of any of the seven public
tag operations), the operation returns the error response built from
the collaborator's own failure text; and every operation, on success or
failure, returns one JSON string produced by `format_json_response`
(the engine's functions are total — the embedding of "never throws"). -/
theorem tag_operations_error_boundary (api : IssuesClient) :
    (∀ q l e, api.get_tags q l = Except.error e →
      Tags.get_available_tags api q l = (errorResponse e, [ApiCall.getTags q l])) ∧
    (∀ i e, api.get_issue_tags i = Except.error e →
      Tags.get_issue_tags api i = (errorResponse e, [ApiCall.getIssueTags i])) ∧
    (∀ i n e, api.find_tag_by_name n = Except.error e →
      (Tags.add_tag_to_issue api i n).1 = errorResponse e ∧
      (Tags.remove_tag_from_issue api i n).1 = errorResponse e ∧
      (Tags.find_tag_by_name api n).1 = errorResponse e) ∧
    (∀ i n tag e, api.find_tag_by_name n = Except.ok (some tag) →
      api.add_tag_to_issue i tag.id = Except.error e →
      (Tags.add_tag_to_issue api i n).1 = errorResponse e) ∧
    (∀ i n tag e, api.find_tag_by_name n = Except.ok (some tag) →
      api.remove_tag_from_issue i tag.id = Except.error e →
      (Tags.remove_tag_from_issue api i n).1 = errorResponse e) ∧
    (∀ i pre n post e, (∀ m ∈ pre, ∃ r, api.find_tag_by_name m = Except.ok r) →
      api.find_tag_by_name n = Except.error e →
      (Tags.set_issue_tags api i (pre ++ n :: post)).1 = errorResponse e) ∧
    (∀ i names e, (∀ m ∈ names, ∃ r, api.find_tag_by_name m = Except.ok r) →
      names.filter (isMissingTag api) = [] →
      api.set_issue_tags i (names.filterMap (resolvedTagId api)) = Except.error e →
      (Tags.set_issue_tags api i names).1 = errorResponse e) ∧
    (∀ i e, api.remove_all_tags_from_issue i = Except.error e →
      Tags.remove_all_tags_from_issue api i = (errorResponse e, [ApiCall.removeAllTagsFromIssue i])) ∧
    (∀ q l, ∃ v, (Tags.get_available_tags api q l).1 = format_json_response v) ∧
    (∀ i, ∃ v, (Tags.get_issue_tags api i).1 = format_json_response v) ∧
    (∀ i n, ∃ v, (Tags.add_tag_to_issue api i n).1 = format_json_response v) ∧
    (∀ i n, ∃ v, (Tags.remove_tag_from_issue api i n).1 = format_json_response v) ∧
    (∀ i names, ∃ v, (Tags.set_issue_tags api i names).1 = format_json_response v) ∧
    (∀ i, ∃ v, (Tags.remove_all_tags_from_issue api i).1 = format_json_response v) ∧
    (∀ n, ∃ v, (Tags.find_tag_by_name api n).1 = format_json_response v) := by
  refine ⟨?_, ?_, ?_, ?_, ?_, ?_, ?_, ?_, ?_, ?_, ?_, ?_, ?_, ?_, ?_⟩
  · intro q l e h
    unfold Tags.get_available_tags
    rw [h]
  · intro i e h
    unfold Tags.get_issue_tags
    rw [h]
  · intro i n e h
    refine ⟨?_, ?_, ?_⟩
    · unfold Tags.add_tag_to_issue; rw [h]
    · unfold Tags.remove_tag_from_issue; rw [h]
    · unfold Tags.find_tag_by_name; rw [h]
  · intro i n tag e hfind herr
    unfold Tags.add_tag_to_issue
    rw [hfind]
    show (match api.add_tag_to_issue i tag.id with
      | Except.ok result => (format_json_response result,
          [ApiCall.findTagByName n, ApiCall.addTagToIssue i tag.id])
      | Except.error e => (errorResponse e,
          [ApiCall.findTagByName n, ApiCall.addTagToIssue i tag.id])).1 = _
    rw [herr]
  · intro i n tag e hfind herr
    unfold Tags.remove_tag_from_issue
    rw [hfind]
    show (match api.remove_tag_from_issue i tag.id with
      | Except.ok true => (format_json_response (.obj [("success", .bool true),
          ("message", .str ("Tag '" ++ n ++ "' removed from issue " ++ i))]),
          [ApiCall.findTagByName n, ApiCall.removeTagFromIssue i tag.id])
      | Except.ok false => (errorResponse
          ("Failed to remove tag '" ++ n ++ "' from issue " ++ i),
          [ApiCall.findTagByName n, ApiCall.removeTagFromIssue i tag.id])
      | Except.error e => (errorResponse e,
          [ApiCall.findTagByName n, ApiCall.removeTagFromIssue i tag.id])).1 = _
    rw [herr]
  · intro i pre n post e hok herr
    obtain ⟨calls, hc⟩ := resolveTagNames_error api pre n post e hok herr
    unfold Tags.set_issue_tags
    rw [hc]
  · intro i names e hok hmiss herr
    unfold Tags.set_issue_tags
    rw [resolveTagNames_ok api names hok, hmiss]
    show (match api.set_issue_tags i (names.filterMap (resolvedTagId api)) with
      | Except.ok result => (format_json_response result,
          names.map ApiCall.findTagByName ++
            [ApiCall.setIssueTags i (names.filterMap (resolvedTagId api))])
      | Except.error e => (errorResponse e,
          names.map ApiCall.findTagByName ++
            [ApiCall.setIssueTags i (names.filterMap (resolvedTagId api))])).1 = _
    rw [herr]
  · intro i e h
    unfold Tags.remove_all_tags_from_issue
    rw [h]
  · intro q l
    unfold Tags.get_available_tags
    rcases h : api.get_tags q l with e | r
    · exact ⟨_, rfl⟩
    · exact ⟨_, rfl⟩
  · intro i
    unfold Tags.get_issue_tags
    rcases h : api.get_issue_tags i with e | r
    · exact ⟨_, rfl⟩
    · exact ⟨_, rfl⟩
  · intro i n
    unfold Tags.add_tag_to_issue
    rcases h : api.find_tag_by_name n with e | r
    · exact ⟨_, rfl⟩
    · rcases r with _ | tag
      · exact ⟨_, rfl⟩
      · show ∃ v, (match api.add_tag_to_issue i tag.id with
          | Except.ok result => (format_json_response result,
              [ApiCall.findTagByName n, ApiCall.addTagToIssue i tag.id])
          | Except.error e => (errorResponse e,
              [ApiCall.findTagByName n, ApiCall.addTagToIssue i tag.id])).1 =
            format_json_response v
        rcases ha : api.add_tag_to_issue i tag.id with e | r2
        · exact ⟨_, rfl⟩
        · exact ⟨_, rfl⟩
  · intro i n
    unfold Tags.remove_tag_from_issue
    rcases h : api.find_tag_by_name n with e | r
    · exact ⟨_, rfl⟩
    · rcases r with _ | tag
      · exact ⟨_, rfl⟩
      · show ∃ v, (match api.remove_tag_from_issue i tag.id with
          | Except.ok true => (format_json_response (.obj [("success", .bool true),
              ("message", .str ("Tag '" ++ n ++ "' removed from issue " ++ i))]),
              [ApiCall.findTagByName n, ApiCall.removeTagFromIssue i tag.id])
          | Except.ok false => (errorResponse
              ("Failed to remove tag '" ++ n ++ "' from issue " ++ i),
              [ApiCall.findTagByName n, ApiCall.removeTagFromIssue i tag.id])
          | Except.error e => (errorResponse e,
              [ApiCall.findTagByName n, ApiCall.removeTagFromIssue i tag.id])).1 =
            format_json_response v
        rcases hr : api.remove_tag_from_issue i tag.id with e | b
        · exact ⟨_, rfl⟩
        · rcases b with _ | _
          · exact ⟨_, rfl⟩
          · exact ⟨_, rfl⟩
  · intro i names
    unfold Tags.set_issue_tags
    rcases h : resolveTagNames api names with ⟨r, calls⟩
    rcases r with e | ⟨ids, miss⟩
    · exact ⟨_, rfl⟩
    · rcases miss with _ | ⟨m, ms⟩
      · show ∃ v, (match api.set_issue_tags i ids with
          | Except.ok result => (format_json_response result,
              calls ++ [ApiCall.setIssueTags i ids])
          | Except.error e => (errorResponse e,
              calls ++ [ApiCall.setIssueTags i ids])).1 = format_json_response v
        rcases hs : api.set_issue_tags i ids with e | r2
        · exact ⟨_, rfl⟩
        · exact ⟨_, rfl⟩
      · exact ⟨_, rfl⟩
  · intro i
    unfold Tags.remove_all_tags_from_issue
    rcases h : api.remove_all_tags_from_issue i with e | r
    · exact ⟨_, rfl⟩
    · exact ⟨_, rfl⟩
  · intro n
    unfold Tags.find_tag_by_name
    rcases h : api.find_tag_by_name n with e | r
    · exact ⟨_, rfl⟩
    · rcases r with _ | tag
      · exact ⟨_, rfl⟩
      · exact ⟨_, rfl⟩

/-- C3 witness: the boundary theorem instantiated against the concrete
collaborator: a listing failure, a directory failure reaching all three
name-taking operations, each store failure on issue "ERR-1" (add,
remove, set, clear), a mid-loop directory failure inside set, and the
single-JSON-string shape of a lookup response. -/
theorem tag_operations_error_boundary_witness :
    Tags.get_available_tags demoApi none 0 =
      (errorResponse "list exploded", [ApiCall.getTags none 0]) ∧
    ((Tags.add_tag_to_issue demoApi "DEMO-123" "boom").1 = errorResponse "directory exploded" ∧
     (Tags.remove_tag_from_issue demoApi "DEMO-123" "boom").1 = errorResponse "directory exploded" ∧
     (Tags.find_tag_by_name demoApi "boom").1 = errorResponse "directory exploded") ∧
    (Tags.add_tag_to_issue demoApi "ERR-1" "deploy").1 = errorResponse "add exploded" ∧
    (Tags.remove_tag_from_issue demoApi "ERR-1" "deploy").1 = errorResponse "remove exploded" ∧
    (Tags.set_issue_tags demoApi "DEMO-123" (["deploy"] ++ "boom" :: ["urgent"])).1 =
      errorResponse "directory exploded" ∧
    (Tags.set_issue_tags demoApi "ERR-1" ["deploy"]).1 = errorResponse "set exploded" ∧
    Tags.remove_all_tags_from_issue demoApi "ERR-1" =
      (errorResponse "clear exploded", [ApiCall.removeAllTagsFromIssue "ERR-1"]) ∧
    (∃ v, (Tags.find_tag_by_name demoApi "ghost").1 = format_json_response v) :=
  ⟨(tag_operations_error_boundary demoApi).1 none 0 "list exploded" rfl,
   (tag_operations_error_boundary demoApi).2.2.1 "DEMO-123" "boom" "directory exploded" rfl,
   (tag_operations_error_boundary demoApi).2.2.2.1 "ERR-1" "deploy" deployTag
     "add exploded" rfl rfl,
   (tag_operations_error_boundary demoApi).2.2.2.2.1 "ERR-1" "deploy" deployTag
     "remove exploded" rfl rfl,
   (tag_operations_error_boundary demoApi).2.2.2.2.2.1 "DEMO-123" ["deploy"] "boom"
     ["urgent"] "directory exploded"
     (by intro m hm; simp at hm; subst hm; exact ⟨some deployTag, rfl⟩) rfl,
   (tag_operations_error_boundary demoApi).2.2.2.2.2.2.1 "ERR-1" ["deploy"] "set exploded"
     (by intro m hm; simp at hm; subst hm; exact ⟨some deployTag, rfl⟩)
     (by decide) rfl,
   (tag_operations_error_boundary demoApi).2.2.2.2.2.2.2.1 "ERR-1" "clear exploded" rfl,
   (tag_operations_error_boundary demoApi).2.2.2.2.2.2.2.2.2.2.2.2.2.2 "ghost"⟩

/-- Allocation does not touch already-allocated addresses. -/
theorem Heap.get_alloc_of_lt (h : Heap) (o : PyObj) (b : Nat) (hb : b < h.next) :
    (h.alloc o).2.get b = h.get b := by
  show (if b = h.next then some o else h.get b) = h.get b
  rw [if_neg (by omega)]

/-- Writing one address does not touch any other. -/
theorem Heap.get_write_ne (h : Heap) (a : Nat) (o : PyObj) (b : Nat) (hb : b ≠ a) :
    (h.write a o).get b = h.get b := by
  show (if b = a then some o else h.get b) = h.get b
  rw [if_neg hb]

/-- The timestamp-field step allocates only fresh addresses and writes
only the result dictionary `ra`: the allocation counter never goes
down, and every other allocated address keeps its object. -/
theorem processFieldH_frame (ra : Nat) (f : String) (h : Heap) :
    h.next ≤ (processFieldH ra f h).next ∧
    ∀ b, b < h.next → b ≠ ra → (processFieldH ra f h).get b = h.get b := by
  unfold processFieldH
  refine ⟨?_, ?_⟩
  · repeat' split
    all_goals try exact le_refl _
    show h.next ≤ h.next + 1
    omega
  · intro b hb hbra
    repeat' split
    all_goals try rfl
    show (Heap.write _ ra _).get b = h.get b
    rw [Heap.get_write_ne _ _ _ _ hbra]
    exact Heap.get_alloc_of_lt h _ b hb

/-- The copy address is the allocation counter at entry. -/
theorem stampCopy_fst (entries : List (String × Nat)) (h : Heap) :
    (stampCopy entries h).1 = h.next := rfl

/-- The copy-and-stamp prefix allocates fresh addresses and writes only
the fresh copy: every address allocated at entry keeps its object. -/
theorem stampCopy_frame (entries : List (String × Nat)) (h : Heap) :
    h.next ≤ (stampCopy entries h).2.next ∧
    ∀ b, b < h.next → (stampCopy entries h).2.get b = h.get b := by
  have halloc : (h.alloc (.pdict entries)).2.next = h.next + 1 := rfl
  have h1 := processFieldH_frame (h.alloc (.pdict entries)).1 "created"
    (h.alloc (.pdict entries)).2
  have h2 := processFieldH_frame (h.alloc (.pdict entries)).1 "updated"
    (processFieldH (h.alloc (.pdict entries)).1 "created" (h.alloc (.pdict entries)).2)
  constructor
  · show h.next ≤ (processFieldH _ "updated" (processFieldH _ "created" _)).next
    have : h.next ≤ (h.alloc (.pdict entries)).2.next := by omega
    omega
  · intro b hb
    show (processFieldH _ "updated" (processFieldH _ "created" _)).get b = h.get b
    have hra : b ≠ (h.alloc (.pdict entries)).1 := by
      show b ≠ h.next
      omega
    have hb1 : b < (h.alloc (.pdict entries)).2.next := by omega
    have hb2 : b < (processFieldH (h.alloc (.pdict entries)).1 "created"
        (h.alloc (.pdict entries)).2).next := by omega
    rw [h2.2 b hb2 hra, h1.2 b hb1 hra]
    exact Heap.get_alloc_of_lt h _ b hb

/-- Writing an entry back touches only the result dictionary. -/
theorem writeBack_frame (ra : Nat) (k : String) (r : Nat) (h : Heap) :
    (writeBack ra k r h).next = h.next ∧
    ∀ b, b ≠ ra → (writeBack ra k r h).get b = h.get b := by
  unfold writeBack
  refine ⟨?_, ?_⟩
  · repeat' split
    all_goals rfl
  · intro b hbra
    repeat' split
    all_goals try rfl
    exact Heap.get_write_ne _ _ _ _ hbra

mutual

/-- The heap-level transform only allocates fresh objects and mutates
objects it freshly allocated: the allocation counter never goes down,
and every address allocated at entry keeps its object. -/
theorem addIsoH_frame (fuel a : Nat) (h : Heap) :
    h.next ≤ (addIsoH fuel a h).2.next ∧
    ∀ b, b < h.next → (addIsoH fuel a h).2.get b = h.get b := by
  cases fuel with
  | zero =>
      unfold addIsoH
      exact ⟨le_refl _, fun b _ => rfl⟩
  | succ fuel =>
      unfold addIsoH
      rcases hga : h.get a with _ | o
      · exact ⟨le_refl _, fun b _ => rfl⟩
      · cases o with
        | pdict entries =>
            have hsc := stampCopy_frame entries h
            show h.next ≤ (match (stampCopy entries h).2.get (stampCopy entries h).1 with
                | some (.pdict cur) =>
                    ((stampCopy entries h).1,
                     recurseEntriesH fuel (stampCopy entries h).1 cur (stampCopy entries h).2)
                | _ => stampCopy entries h).2.next ∧
              ∀ b, b < h.next →
                (match (stampCopy entries h).2.get (stampCopy entries h).1 with
                | some (.pdict cur) =>
                    ((stampCopy entries h).1,
                     recurseEntriesH fuel (stampCopy entries h).1 cur (stampCopy entries h).2)
                | _ => stampCopy entries h).2.get b = h.get b
            rcases hcur : (stampCopy entries h).2.get (stampCopy entries h).1 with _ | o2
            · exact hsc
            · cases o2 with
              | pdict cur =>
                  have hrec := recurseEntriesH_frame fuel (stampCopy entries h).1
                    cur (stampCopy entries h).2
                  constructor
                  · exact le_trans hsc.1 hrec.1
                  · intro b hb
                    show (recurseEntriesH fuel (stampCopy entries h).1 cur
                      (stampCopy entries h).2).get b = h.get b
                    rw [hrec.2 b (by have := hsc.1; omega)
                        (by rw [stampCopy_fst]; omega)]
                    exact hsc.2 b hb
              | pnull => exact hsc
              | pbool b0 => exact hsc
              | pint n0 => exact hsc
              | pstr s0 => exact hsc
              | plist es => exact hsc
        | plist elems =>
            have hrec := recurseElemsH_frame fuel elems h
            constructor
            · show h.next ≤ (recurseElemsH fuel elems h).2.next + 1
              have := hrec.1
              omega
            · intro b hb
              show (if b = (recurseElemsH fuel elems h).2.next then _ else
                (recurseElemsH fuel elems h).2.get b) = h.get b
              rw [if_neg (by have := hrec.1; omega)]
              exact hrec.2 b hb
        | pnull => exact ⟨le_refl _, fun b _ => rfl⟩
        | pbool b0 => exact ⟨le_refl _, fun b _ => rfl⟩
        | pint n0 => exact ⟨le_refl _, fun b _ => rfl⟩
        | pstr s0 => exact ⟨le_refl _, fun b _ => rfl⟩
termination_by (fuel, 0)

/-- The recursion loop mutates only the result dictionary `ra` and
freshly allocated objects. -/
theorem recurseEntriesH_frame (fuel ra : Nat) (l : List (String × Nat)) (h : Heap) :
    h.next ≤ (recurseEntriesH fuel ra l h).next ∧
    ∀ b, b < h.next → b ≠ ra → (recurseEntriesH fuel ra l h).get b = h.get b := by
  match l with
  | [] =>
      unfold recurseEntriesH
      exact ⟨le_refl _, fun b _ _ => rfl⟩
  | (k, va) :: rest =>
      unfold recurseEntriesH
      by_cases hc : isContainerAddr h va = true
      · rw [if_pos hc]
        have hadd := addIsoH_frame fuel va h
        have hwb := writeBack_frame ra k (addIsoH fuel va h).1 (addIsoH fuel va h).2
        have hrest := recurseEntriesH_frame fuel ra rest
          (writeBack ra k (addIsoH fuel va h).1 (addIsoH fuel va h).2)
        constructor
        · have := hadd.1
          have := hwb.1
          have := hrest.1
          omega
        · intro b hb hbra
          rw [hrest.2 b (by have := hadd.1; have := hwb.1; omega) hbra,
            hwb.2 b hbra]
          exact hadd.2 b hb
      · rw [if_neg hc]
        exact recurseEntriesH_frame fuel ra rest h
termination_by (fuel, l.length + 1)

/-- The list comprehension mutates nothing allocated at entry. -/
theorem recurseElemsH_frame (fuel : Nat) (l : List Nat) (h : Heap) :
    h.next ≤ (recurseElemsH fuel l h).2.next ∧
    ∀ b, b < h.next → (recurseElemsH fuel l h).2.get b = h.get b := by
  match l with
  | [] =>
      unfold recurseElemsH
      exact ⟨le_refl _, fun b _ => rfl⟩
  | a :: rest =>
      unfold recurseElemsH
      have hadd := addIsoH_frame fuel a h
      have hrest := recurseElemsH_frame fuel rest (addIsoH fuel a h).2
      constructor
      · show h.next ≤ (recurseElemsH fuel rest (addIsoH fuel a h).2).2.next
        have := hadd.1
        have := hrest.1
        omega
      · intro b hb
        show (recurseElemsH fuel rest (addIsoH fuel a h).2).2.get b = h.get b
        rw [hrest.2 b (by have := hadd.1; omega)]
        exact hadd.2 b hb
termination_by (fuel, l.length + 1)

end

/-- Congruence for Option-mapM over a list with pointwise-equal
functions. -/
theorem mapM_congr_option {α β : Type} (l : List α) (f g : α → Option β)
    (hfg : ∀ x ∈ l, f x = g x) : l.mapM f = l.mapM g := by
  induction l with
  | nil => rfl
  | cons x xs ih =>
      rw [List.mapM_cons, List.mapM_cons, hfg x (List.mem_cons_self _ _),
        ih (fun y hy => hfg y (List.mem_cons_of_mem _ hy))]

/-- Reading a value back is insensitive to a heap extension that keeps
every allocated address: decoding visits only addresses reachable from
an allocated root, which a well-formed heap keeps below the counter. -/
theorem decodeH_frame (h h' : Heap) (hwf : h.wf)
    (hsame : ∀ b, b < h.next → h'.get b = h.get b) :
    ∀ dfuel b, b < h.next → decodeH dfuel b h' = decodeH dfuel b h := by
  intro dfuel
  induction dfuel with
  | zero => intro b _; rfl
  | succ n ih =>
      intro b hb
      unfold decodeH
      rw [hsame b hb]
      rcases hgb : h.get b with _ | o
      · rfl
      · cases o with
        | plist elems =>
            have hptr := hwf.2 b _ hgb
            show (elems.mapM fun e => decodeH n e h').map JsonValue.arr =
              (elems.mapM fun e => decodeH n e h).map JsonValue.arr
            rw [mapM_congr_option elems _ _
              (fun e he => ih e (hptr e he))]
        | pdict entries =>
            have hptr := hwf.2 b _ hgb
            show ((entries.mapM fun kv => (decodeH n kv.2 h').map
                fun v => (kv.1, v)).map JsonValue.obj) =
              ((entries.mapM fun kv => (decodeH n kv.2 h).map
                fun v => (kv.1, v)).map JsonValue.obj)
            rw [mapM_congr_option entries _ _
              (fun kv hkv => by
                rw [ih kv.2 (hptr kv.2 (List.mem_map_of_mem Prod.snd hkv))])]
        | pnull => rfl
        | pbool b0 => rfl
        | pint n0 => rfl
        | pstr s0 => rfl

/-- C8: the heap-level transform leaves the caller's input completely
unchanged: decoding any address allocated before the call — the input's
root and every structure nested inside it — reads back the same value
after the call as before, at every depth; the transform's output lives
entirely in freshly allocated objects. -/
theorem add_iso8601_heap_no_mutation (h : Heap) (hwf : h.wf) (fuel a : Nat) :
    ∀ dfuel b, b < h.next → decodeH dfuel b (addIsoH fuel a h).2 = decodeH dfuel b h := by
  have hframe := addIsoH_frame fuel a h
  exact decodeH_frame h (addIsoH fuel a h).2 hwf (fun b hb => hframe.2 b hb)

/-- The concrete two-object heap is well formed. -/
theorem demoHeap_wf : demoHeap.wf := by
  constructor
  · intro b hb
    have hn : demoHeap.next = 2 := rfl
    rw [hn] at hb
    show (if b = 0 then some (PyObj.pdict [("created", 1)])
      else if b = 1 then some (PyObj.pint 1700000000000) else none) = none
    rw [if_neg (by omega), if_neg (by omega)]
  · intro b o hbo p hp
    by_cases h0 : b = 0
    · subst h0
      have : demoHeap.get 0 = some (.pdict [("created", 1)]) := rfl
      rw [this] at hbo
      obtain rfl := Option.some.inj hbo
      simp [PyObj.ptrs] at hp
      subst hp
      show 1 < 2
      omega
    · by_cases h1 : b = 1
      · subst h1
        have : demoHeap.get 1 = some (.pint 1700000000000) := rfl
        rw [this] at hbo
        obtain rfl := Option.some.inj hbo
        simp [PyObj.ptrs] at hp
      · have : demoHeap.get b = none := by
          show (if b = 0 then some (PyObj.pdict [("created", 1)])
            else if b = 1 then some (PyObj.pint 1700000000000) else none) = none
          rw [if_neg h0, if_neg h1]
        rw [this] at hbo
        exact Option.noConfusion hbo

/-- C8 witness: the transform applied to the concrete heap leaves the
value decoded at the input's root address 0 unchanged. -/
theorem add_iso8601_heap_no_mutation_witness :
    demoHeap.wf ∧ (0 : Nat) < demoHeap.next ∧
    decodeH 3 0 (addIsoH 3 0 demoHeap).2 = decodeH 3 0 demoHeap :=
  ⟨demoHeap_wf, by decide,
   add_iso8601_heap_no_mutation demoHeap demoHeap_wf 3 0 3 0 (by decide)⟩
